import Mathlib

/-!
Verification development for the customer-data cleaning and merging programs
(`clean_data_1.py`, `clean_data.py`, `merge_customers.py`).

The Python functions are shallowly embedded: strings are `String`, Python
floats are modelled exactly as rationals (`ℚ`), Python ints as `ℤ`/`ℕ`,
`None`/NaN as `Option`/an explicit null value, and an uncaught exception as
`Option.none` of the whole computation.  Global counter updates
(`STATS[k] += 1`) are modelled by returning the list of counter keys that a
call increments.
-/

namespace DataClean

section

/- Batteries marks `ℚ` arithmetic `@[irreducible]`, which blocks `decide`
from evaluating the embedded parsers on concrete inputs; restore
reducibility locally for this development. -/
attribute [local semireducible] Rat.mul Rat.add Rat.sub Rat.inv Rat.ofScientific

/-- Python `\s` class (whitespace).  Lean's `Char.isWhitespace` covers
space, tab, CR, LF; Python additionally treats `\x0b`/`\x0c` as whitespace. -/
def pySpace (c : Char) : Bool :=
  c.isWhitespace || c = '\x0b' || c = '\x0c'

/-- `str.strip()` / `str.trim`: drop whitespace on both ends. -/
def pyStrip (s : String) : String :=
  ⟨((s.data.dropWhile pySpace).reverse.dropWhile pySpace).reverse⟩

/-- `str.lower()` (ASCII case folding, as in the data at hand). -/
def pyLower (s : String) : String :=
  ⟨s.data.map Char.toLower⟩

/-- `s.replace(",", "")`: a single-character pattern replace is a filter. -/
def removeCommas (s : String) : String :=
  ⟨s.data.filter (fun c => c ≠ ',')⟩

/-- A regex word character (`\w`): letter, digit or underscore. -/
def isWordChar (c : Char) : Bool :=
  c.isAlphanum || c = '_'

/-- Numeric value of a digit character. -/
def digitVal (c : Char) : ℕ := c.toNat - '0'.toNat

/-- Value of a digit run read as a natural number. -/
def natOfDigits (ds : List Char) : ℕ :=
  ds.foldl (fun acc c => 10 * acc + digitVal c) 0

/-- Value of a digit run read as a fractional part (digits after the dot). -/
def fracOfDigits (ds : List Char) : ℚ :=
  (natOfDigits ds : ℚ) / (10 : ℚ) ^ ds.length

/-- Greedy attempt at the optional regex group `(\.\d+)`: a dot followed by
at least one digit.  Returns the fractional value and the rest. -/
def parseFracGroup : List Char → Option (ℚ × List Char)
  | '.' :: t =>
    let fs := t.takeWhile Char.isDigit
    if fs.isEmpty then none else some (fracOfDigits fs, t.dropWhile Char.isDigit)
  | _ => none

/-- `re.match(r"^([+-]?\d+(\.\d+)?)(\s*[kKmM])?$", s)` from `text_to_number`,
returning the numeric value with the `k`/`m` magnitude applied. -/
def matchNumKM (cs : List Char) : Option ℚ :=
  let (sgn, cs1) : ℚ × List Char :=
    match cs with
    | '+' :: t => (1, t)
    | '-' :: t => (-1, t)
    | t => (1, t)
  let ds := cs1.takeWhile Char.isDigit
  if ds.isEmpty then none
  else
    let cs2 := cs1.dropWhile Char.isDigit
    let (fv, rest) : ℚ × List Char :=
      match parseFracGroup cs2 with
      | some (f, r) => (f, r)
      | none => (0, cs2)
    let base := sgn * ((natOfDigits ds : ℚ) + fv)
    match rest with
    | [] => some base
    | _ =>
      match rest.dropWhile pySpace with
      | [c] =>
        if c = 'k' ∨ c = 'K' then some (base * 1000)
        else if c = 'm' ∨ c = 'M' then some (base * 1000000)
        else none
      | _ => none

/-- Attempt of `[+-]?\d+(\.\d+)?` anchored at the head of the list. -/
def tryNumHere (cs : List Char) : Option ℚ :=
  let (sgn, cs1) : ℚ × List Char :=
    match cs with
    | '+' :: t => (1, t)
    | '-' :: t => (-1, t)
    | t => (1, t)
  let ds := cs1.takeWhile Char.isDigit
  if ds.isEmpty then none
  else
    let cs2 := cs1.dropWhile Char.isDigit
    let fv : ℚ :=
      match parseFracGroup cs2 with
      | some (f, _) => f
      | none => 0
    some (sgn * ((natOfDigits ds : ℚ) + fv))

/-- `re.search(r"([+-]?\d+(\.\d+)?)", s)`: value of the leftmost embedded
decimal substring, if any. -/
def searchNum : List Char → Option ℚ
  | [] => none
  | c :: cs =>
    match tryNumHere (c :: cs) with
    | some q => some q
    | none => searchNum cs

/-- If `w` is a prefix of `cs`, the remainder of `cs` after it. -/
def dropWord : List Char → List Char → Option (List Char)
  | [], cs => some cs
  | _ :: _, [] => none
  | w :: ws, c :: cs => if w = c then dropWord ws cs else none

/-- A `\b` holds after a just-matched word when the next character is not a
word character (or the string ends). -/
def boundaryAfter : List Char → Bool
  | [] => true
  | c :: _ => ¬ isWordChar c

/-- One attempt of the alternation `(dollars?|usd|aud|gbp|eur)\b` at the
current position (the `\b` before the match is checked by the caller).
Alternatives are tried in regex order, `dollars` (greedy `s?`) first. -/
def tryCurrencyWord (cs : List Char) : Option (List Char) :=
  let tryOne (w : String) : Option (List Char) :=
    match dropWord w.data cs with
    | some rest => if boundaryAfter rest then some rest else none
    | none => none
  (tryOne "dollars").orElse fun _ =>
  (tryOne "dollar").orElse fun _ =>
  (tryOne "usd").orElse fun _ =>
  (tryOne "aud").orElse fun _ =>
  (tryOne "gbp").orElse fun _ =>
  tryOne "eur"

/-- Scanner for `re.sub(r"\b(dollars?|usd|aud|gbp|eur)\b", "", s)`.  The
`Bool` records whether a word boundary can hold before the current position.
The fuel is the remaining length, which each step strictly decreases. -/
def removeCurrencyGo : ℕ → Bool → List Char → List Char
  | 0, _, cs => cs
  | _ + 1, _, [] => []
  | fuel + 1, bnd, c :: cs =>
    if bnd then
      match tryCurrencyWord (c :: cs) with
      | some rest => removeCurrencyGo fuel true rest
      | none => c :: removeCurrencyGo fuel (!isWordChar c) cs
    else c :: removeCurrencyGo fuel (!isWordChar c) cs

/-- `re.sub(r"\b(dollars?|usd|aud|gbp|eur)\b", "", s)`. -/
def removeCurrencyWords (s : String) : String :=
  ⟨removeCurrencyGo s.data.length true s.data⟩

/-- Splitter for `re.split(r"[\s-]+", s)`: tokens between maximal runs of
whitespace/hyphens, with empty edge tokens exactly as `re.split` yields. -/
def splitSepGo (isSep : Char → Bool) : ℕ → List Char → List String
  | 0, cs => [⟨cs⟩]
  | fuel + 1, cs =>
    let tok := cs.takeWhile (fun c => ¬ isSep c)
    let rest := cs.dropWhile (fun c => ¬ isSep c)
    match rest with
    | [] => [⟨tok⟩]
    | _ => ⟨tok⟩ :: splitSepGo isSep fuel (rest.dropWhile isSep)

/-- `re.split(r"[\s-]+", s)`. -/
def splitTokens (s : String) : List String :=
  splitSepGo (fun c => pySpace c || c = '-') (s.data.length + 1) s.data

/-- The `units` dictionary of `text_to_number`. -/
def unitsTable : List (String × ℕ) :=
  [("zero", 0), ("one", 1), ("two", 2), ("three", 3), ("four", 4), ("five", 5),
   ("six", 6), ("seven", 7), ("eight", 8), ("nine", 9), ("ten", 10),
   ("eleven", 11), ("twelve", 12), ("thirteen", 13), ("fourteen", 14),
   ("fifteen", 15), ("sixteen", 16), ("seventeen", 17), ("eighteen", 18),
   ("nineteen", 19)]

/-- The `tens` dictionary of `text_to_number`. -/
def tensTable : List (String × ℕ) :=
  [("twenty", 20), ("thirty", 30), ("forty", 40), ("fifty", 50),
   ("sixty", 60), ("seventy", 70), ("eighty", 80), ("ninety", 90)]

/-- The `scales` dictionary of `text_to_number`. -/
def scalesTable : List (String × ℕ) :=
  [("hundred", 100), ("thousand", 1000), ("million", 1000000),
   ("billion", 1000000000)]

/-- The word-accumulator loop of `text_to_number`: `current`/`total` run over
the tokens; an unknown token aborts.  The final result is `total + current`
(the Python code does `total += current` after the loop). -/
def wordsToNumber : List String → ℕ → ℕ → Option ℕ
  | [], current, total => some (total + current)
  | w :: ws, current, total =>
    match unitsTable.lookup w with
    | some u => wordsToNumber ws (current + u) total
    | none =>
      match tensTable.lookup w with
      | some t => wordsToNumber ws (current + t) total
      | none =>
        if w = "and" then wordsToNumber ws current total
        else
          match scalesTable.lookup w with
          | some sc =>
            wordsToNumber ws 0 (total + (if current = 0 then 1 else current) * sc)
          | none => none

/-- The numeric-cleanup steps of `text_to_number`: lowercase, strip, drop
commas, remove currency words, strip again. -/
def quantityCleanup (s : String) : String :=
  pyStrip (removeCurrencyWords (removeCommas s))

/-- `text_to_number` from `clean_data_1.py`.  `none` is Python `None`; the
input is the raw value (`none` for `None`/NaN, otherwise its string form). -/
def text_to_number (v : Option String) : Option ℚ :=
  match v with
  | none => none
  | some raw =>
    let s0 := pyStrip (pyLower raw)
    if s0 = "" then none
    else
      let s2 := quantityCleanup s0
      match matchNumKM s2.data with
      | some q => some q
      | none =>
        match searchNum s2.data with
        | some q => some q
        | none =>
          match wordsToNumber (splitTokens s2) 0 0 with
          | some total => if total ≠ 0 then some (total : ℚ) else none
          | none => none

/-- Removal of currency symbols, as the specification's wording
"stripping currency words/symbols" asks for (the code strips only the
currency *words*; `$`, `£`, `€` survive its cleanup). -/
def removeCurrencySymbols (s : String) : String :=
  ⟨s.data.filter (fun c => c ≠ '$' ∧ c ≠ '£' ∧ c ≠ '€')⟩

/-- The reference cascade exactly as the claim states it: (1) a signed
decimal with optional `k`/`m` magnitude after removing thousands separators
and currency words *and symbols*; (2) else the first embedded decimal
substring; (3) else the English-number-word accumulator, whose result is the
accumulated value (the claim states no special case for an accumulated 0). -/
def quantity_spec (v : Option String) : Option ℚ :=
  match v with
  | none => none
  | some raw =>
    let s0 := pyStrip (pyLower raw)
    if s0 = "" then none
    else
      let c := pyStrip (removeCurrencySymbols (removeCurrencyWords (removeCommas s0)))
      (matchNumKM c.data).orElse fun _ =>
        (searchNum c.data).orElse fun _ =>
          (wordsToNumber (splitTokens c) 0 0).map (fun t => (t : ℚ))

/-- The cascade as amended to match the code: only currency *words* are
stripped (symbols such as `$` are not), and a word parse whose accumulated
total is 0 yields null. -/
def quantity_amended (v : Option String) : Option ℚ :=
  match v with
  | none => none
  | some raw =>
    let s0 := pyStrip (pyLower raw)
    if s0 = "" then none
    else
      let c := quantityCleanup s0
      (matchNumKM c.data).orElse fun _ =>
        (searchNum c.data).orElse fun _ =>
          (wordsToNumber (splitTokens c) 0 0).bind
            (fun t => if t = 0 then none else some (t : ℚ))

/-- C1 counterexample: the claim's cascade strips currency symbols, so it
yields 60000 on `"$60k"`, while `text_to_number` leaves the `$` in place,
misses the magnitude tier and falls through to the embedded-decimal tier,
returning 60 (despite the code's own comment listing `$60k` as handled).
Moreover the claim's word tier returns the accumulated 0 on `"zero"`, while
the code maps an accumulated 0 to null. -/
theorem C1_counterexample :
    quantity_spec (some "$60k") = some 60000 ∧
    text_to_number (some "$60k") = some 60 ∧
    quantity_spec (some "zero") = some 0 ∧
    text_to_number (some "zero") = none := by
  refine ⟨by decide, by decide, by decide, by decide⟩

/-- C1 (amended): `text_to_number` equals the three-tier cascade in which
tier 1 strips thousands separators and currency *words* only, and the word
tier returns null whenever its accumulated total is 0; and the four stated
examples hold. -/
theorem C1_normalize_quantity_cascade :
    (∀ v, text_to_number v = quantity_amended v) ∧
    text_to_number (some "sixty thousand") = some 60000 ∧
    text_to_number (some "2.5M") = some 2500000 ∧
    text_to_number (some "forty-two") = some 42 ∧
    text_to_number (some "xyz-unit") = none := by
  refine ⟨fun v => ?_, by decide, by decide, by decide, by decide⟩
  cases v with
  | none => rfl
  | some raw =>
    simp only [text_to_number, quantity_amended]
    split
    · rfl
    · cases h1 : matchNumKM (quantityCleanup (pyStrip (pyLower raw))).data with
      | some q => simp [Option.orElse, h1]
      | none =>
        cases h2 : searchNum (quantityCleanup (pyStrip (pyLower raw))).data with
        | some q => simp [Option.orElse, h1, h2]
        | none =>
          cases h3 : wordsToNumber (splitTokens (quantityCleanup (pyStrip (pyLower raw)))) 0 0 with
          | some t =>
            by_cases ht : t = 0 <;> simp [Option.orElse, h1, h2, h3, ht]
          | none => simp [Option.orElse, h1, h2, h3]

/-- C9: whenever an input reaches the word tier (tiers 1 and 2 fail on the
cleaned text) and the word accumulator finishes with total 0, the function
returns null rather than 0. -/
theorem C9_word_tier_zero_yields_null (raw : String)
    (h0 : pyStrip (pyLower raw) ≠ "")
    (h1 : matchNumKM (quantityCleanup (pyStrip (pyLower raw))).data = none)
    (h2 : searchNum (quantityCleanup (pyStrip (pyLower raw))).data = none)
    (h3 : wordsToNumber (splitTokens (quantityCleanup (pyStrip (pyLower raw)))) 0 0 = some 0) :
    text_to_number (some raw) = none := by
  simp [text_to_number, h0, h1, h2, h3]

/-- C9 witness: `"zero"` reaches the word tier, accumulates 0, and parses to
null. -/
theorem C9_witness :
    wordsToNumber (splitTokens (quantityCleanup (pyStrip (pyLower "zero")))) 0 0 = some 0 ∧
    text_to_number (some "zero") = none :=
  ⟨by decide, C9_word_tier_zero_yields_null "zero" (by decide) (by decide) (by decide) (by decide)⟩

/-! ## The field cleaners of `clean_data_1.py` and their Parse Statistics

Each cleaner returns its value together with the list of `STATS` counter
keys its call increments (the writer-monad view of `STATS[k] += 1`). -/

/-- Optional exponent part of a Python float literal (`e`/`E`, sign,
digits); `inf`/`nan` and digit underscores do not occur in this data and are
out of scope. -/
def parseExpPart (q : ℚ) : List Char → Option ℚ
  | [] => some q
  | c :: t =>
    if c = 'e' ∨ c = 'E' then
      let (neg, t1) : Bool × List Char :=
        match t with
        | '+' :: r => (false, r)
        | '-' :: r => (true, r)
        | r => (false, r)
      let ds := t1.takeWhile Char.isDigit
      if ds.isEmpty then none
      else if (t1.dropWhile Char.isDigit).isEmpty then
        let e := natOfDigits ds
        some (if neg then q / (10 : ℚ) ^ e else q * (10 : ℚ) ^ e)
      else none
    else none

/-- Python `float(str)` on the numeric-literal forms: optional sign, digits
with an optional dot (at least one digit overall), optional exponent.
Failure (`ValueError`) is `none`. -/
def pyFloatCore (cs : List Char) : Option ℚ :=
  let (sgn, cs1) : ℚ × List Char :=
    match cs with
    | '+' :: t => (1, t)
    | '-' :: t => (-1, t)
    | t => (1, t)
  let ds := cs1.takeWhile Char.isDigit
  let cs2 := cs1.dropWhile Char.isDigit
  match cs2 with
  | '.' :: t =>
    let fs := t.takeWhile Char.isDigit
    if ds.isEmpty ∧ fs.isEmpty then none
    else parseExpPart (sgn * ((natOfDigits ds : ℚ) + fracOfDigits fs)) (t.dropWhile Char.isDigit)
  | _ => if ds.isEmpty then none else parseExpPart (sgn * (natOfDigits ds : ℚ)) cs2

/-- `float(s)` (which strips surrounding whitespace first). -/
def pyFloat (s : String) : Option ℚ :=
  pyFloatCore (pyStrip s).data

/-- Python `int(x)` on a float: truncation toward zero. -/
def pyInt (q : ℚ) : ℤ :=
  q.num.tdiv q.den

/-- `str.title()`: a letter is uppercased after a non-letter, lowercased
after a letter. -/
def pyTitleGo : Bool → List Char → List Char
  | _, [] => []
  | prevAlpha, c :: cs =>
    if c.isAlpha then
      (if prevAlpha then c.toLower else c.toUpper) :: pyTitleGo true cs
    else c :: pyTitleGo false cs

/-- `str.title()`. -/
def pyTitle (s : String) : String :=
  ⟨pyTitleGo false s.data⟩

/-- `clean_name` from `clean_data_1.py`: strip then title-case; increments
no counter. -/
def clean_name (v : Option String) : Option String × List String :=
  match v with
  | none => (none, [])
  | some s => (some (pyTitle (pyStrip s)), [])

/-- Character class `[a-z0-9._%+-]` (the local part of the email pattern). -/
def inLocalClass (c : Char) : Bool :=
  c.isLower || c.isDigit || c = '.' || c = '_' || c = '%' || c = '+' || c = '-'

/-- Character class `[a-z0-9.-]` (the domain part of the email pattern). -/
def inDomainClass (c : Char) : Bool :=
  c.isLower || c.isDigit || c = '.' || c = '-'

/-- The domain side of the pattern: `[a-z0-9.-]+\.[a-z]{2,}$`.  Only the
split at the last dot can succeed, since a later dot inside the TLD part
would violate `[a-z]{2,}`. -/
def domainOk (r : List Char) : Bool :=
  let rev := r.reverse
  let tld := rev.takeWhile (fun c => c ≠ '.')
  match rev.dropWhile (fun c => c ≠ '.') with
  | '.' :: midRev =>
    decide (tld.length ≥ 2) && tld.all Char.isLower &&
      (!midRev.isEmpty) && midRev.all inDomainClass
  | _ => false

/-- `re.match(r"^[a-z0-9._%+-]+@[a-z0-9.-]+\.[a-z]{2,}$", e)` as a Boolean.
Both classes exclude `@`, so the local part ends at the first `@`. -/
def emailOk (e : String) : Bool :=
  let cs := e.data
  let l := cs.takeWhile (fun c => c ≠ '@')
  match cs.dropWhile (fun c => c ≠ '@') with
  | '@' :: r => (!l.isEmpty) && l.all inLocalClass && domainOk r
  | _ => false

/-- `clean_email` from `clean_data_1.py`: lowercase, strip, validate;
increments `invalid_emails_removed` only on a failed validation. -/
def clean_email (v : Option String) : Option String × List String :=
  match v with
  | none => (none, [])
  | some s =>
    let e := pyLower (pyStrip s)
    if emailOk e then (some e, []) else (none, ["invalid_emails_removed"])

/-- `clean_age` from `clean_data_1.py`: numeric extraction
`int(float(re.sub(r"[^\d\.-]", "", s)))` first, then `text_to_number`. -/
def clean_age (v : Option String) : Option ℤ × List String :=
  match v with
  | none => (none, ["age_failed"])
  | some raw =>
    let s := pyStrip raw
    match pyFloat ⟨s.data.filter (fun c => c.isDigit || c = '.' || c = '-')⟩ with
    | some q => (some (pyInt q), ["age_numeric_parsed"])
    | none =>
      match text_to_number (some s) with
      | some q => (some (pyInt q), ["age_text_parsed"])
      | none => (none, ["age_failed"])

/-- `re.match(r"^([+-]?\d+(\.\d+)?)([kKmM])?$", s)` from `clean_salary`,
with the magnitude applied (no whitespace before the suffix here). -/
def matchSalaryNum (cs : List Char) : Option ℚ :=
  let (sgn, cs1) : ℚ × List Char :=
    match cs with
    | '+' :: t => (1, t)
    | '-' :: t => (-1, t)
    | t => (1, t)
  let ds := cs1.takeWhile Char.isDigit
  if ds.isEmpty then none
  else
    let cs2 := cs1.dropWhile Char.isDigit
    let (fv, rest) : ℚ × List Char :=
      match parseFracGroup cs2 with
      | some (f, r) => (f, r)
      | none => (0, cs2)
    let base := sgn * ((natOfDigits ds : ℚ) + fv)
    match rest with
    | [] => some base
    | [c] =>
      if c = 'k' ∨ c = 'K' then some (base * 1000)
      else if c = 'm' ∨ c = 'M' then some (base * 1000000)
      else none
    | _ => none

/-- `clean_salary` from `clean_data_1.py`: keep `[\d.\-kKmM]`, try the
signed-decimal-with-magnitude match, then `text_to_number`. -/
def clean_salary (v : Option String) : Option ℚ × List String :=
  match v with
  | none => (none, ["salary_failed"])
  | some raw =>
    let s := pyStrip raw
    let sd := s.data.filter (fun c =>
      c.isDigit || c = '.' || c = '-' || c = 'k' || c = 'K' || c = 'm' || c = 'M')
    match matchSalaryNum sd with
    | some q => (some q, ["salary_numeric_parsed"])
    | none =>
      match text_to_number (some s) with
      | some q => (some q, ["salary_text_parsed"])
      | none => (none, ["salary_failed"])

/-- `f"({d[:3]}) {d[3:6]}-{d[6:]}"` on a 10-digit list. -/
def usPhoneFormat (d : List Char) : String :=
  "(" ++ ⟨d.take 3⟩ ++ ") " ++ ⟨(d.drop 3).take 3⟩ ++ "-" ++ ⟨d.drop 6⟩

/-- `clean_phone` from `clean_data_1.py`.  (The source also computes an
unused intermediate `digits = re.sub(r"[^\d+]", "", s)`; only
`digits_only = re.sub(r"\D", "", s)` feeds the result.) -/
def clean_phone (v : Option String) : Option String × List String :=
  match v with
  | none => (none, ["phone_failed"])
  | some raw =>
    let d := raw.data.filter Char.isDigit
    if d.length = 10 then (some (usPhoneFormat d), ["phone_parsed_us"])
    else if d.length = 11 ∧ d.head? = some '1' then
      (some (usPhoneFormat (d.drop 1)), ["phone_parsed_us"])
    else if d.length > 10 then (some ("+" ++ (⟨d⟩ : String)), ["phone_parsed_intl"])
    else (none, ["phone_failed"])

/-- `clean_phone` from the older variant `clean_data.py`: same 10- and
11-digit cases but no international branch and no counters. -/
def clean_phone_v0 (v : Option String) : Option String :=
  match v with
  | none => none
  | some raw =>
    let d := raw.data.filter Char.isDigit
    if d.length = 10 then some (usPhoneFormat d)
    else if d.length = 11 ∧ d.head? = some '1' then some (usPhoneFormat (d.drop 1))
    else none

/-- A calendar date as produced by the (external) `pd.to_datetime`; pandas
timestamps always carry four-digit years (1677–2262). -/
structure Date where
  y : ℕ
  m : ℕ
  d : ℕ
deriving DecidableEq, Repr

/-- The decimal digit character of `n % 10`. -/
def digit10 (n : ℕ) : Char :=
  Nat.digitChar (n % 10)

/-- `dt.strftime("%Y-%m-%d")` for a pandas timestamp (four-digit year,
zero-padded month and day). -/
def isoFormat (dt : Date) : String :=
  ⟨[digit10 (dt.y / 1000), digit10 (dt.y / 100), digit10 (dt.y / 10), digit10 dt.y, '-',
    digit10 (dt.m / 10), digit10 dt.m, '-', digit10 (dt.d / 10), digit10 dt.d]⟩

/-- `clean_date` from `clean_data_1.py`, parameterised by the external
parser `p b s` = `pd.to_datetime(s, errors="coerce", dayfirst=b)` (`none`
for `NaT` or an exception): month-first attempt, then day-first. -/
def clean_date (p : Bool → String → Option Date) (v : Option String) :
    Option String × List String :=
  match v with
  | none => (none, ["date_failed"])
  | some s =>
    match p false s with
    | some dt => (some (isoFormat dt), ["date_parsed"])
    | none =>
      match p true s with
      | some dt => (some (isoFormat dt), ["date_parsed"])
      | none => (none, ["date_failed"])

/-! ## C3: phone normalization -/

/-- The phone rule as amended to match `clean_data_1.py`: fewer than 10
digits is null; 10 digits is the US format; 11 digits with a leading `1`
drops it; every other count above 10 — including 11 digits not starting
with `1` — is `+` followed by the digits. -/
def phone_amended (v : Option String) : Option String :=
  match v with
  | none => none
  | some raw =>
    let d := raw.data.filter Char.isDigit
    if d.length < 10 then none
    else if d.length = 10 then some (usPhoneFormat d)
    else if d.length = 11 ∧ d.head? = some '1' then some (usPhoneFormat (d.drop 1))
    else some ("+" ++ (⟨d⟩ : String))

/-- C3 counterexample: on exactly 11 digits not starting with `1` the claim
demands null, but `clean_phone` (the `>10` fallback of `clean_data_1.py`)
returns `+<digits>`; conversely the older `clean_data.py` variant returns
null on more than 11 digits where the claim demands `+<digits>`. -/
theorem C3_counterexample :
    (clean_phone (some "25551234567")).1 = some "+25551234567" ∧
    clean_phone_v0 (some "555123456789") = none := by
  exact ⟨by decide, by decide⟩

/-- C3 (amended): `clean_phone` strips non-digits and maps 10 digits to the
US format, 11 digits with a leading 1 to the US format of the rest, any
other count above 10 to `+<digits>`, and fewer than 10 digits to null; the
three stated examples hold. -/
theorem C3_normalize_phone :
    (∀ v, (clean_phone v).1 = phone_amended v) ∧
    (clean_phone (some "555-123-4567")).1 = some "(555) 123-4567" ∧
    (clean_phone (some "1-555-123-4567")).1 = some "(555) 123-4567" ∧
    (clean_phone (some "12345")).1 = none := by
  refine ⟨fun v => ?_, by decide, by decide, by decide⟩
  cases v with
  | none => rfl
  | some raw =>
    simp only [clean_phone, phone_amended]
    by_cases h10 : (raw.data.filter Char.isDigit).length = 10
    · rw [if_pos h10, if_neg (by omega), if_pos h10]
    · by_cases h11 : (raw.data.filter Char.isDigit).length = 11 ∧
        (raw.data.filter Char.isDigit).head? = some '1'
      · rw [if_neg h10, if_pos h11, if_neg (by omega : ¬ (raw.data.filter Char.isDigit).length < 10),
          if_neg h10, if_pos h11]
      · by_cases hgt : (raw.data.filter Char.isDigit).length > 10
        · rw [if_neg h10, if_neg h11, if_pos hgt,
            if_neg (by omega : ¬ (raw.data.filter Char.isDigit).length < 10),
            if_neg h10, if_neg h11]
        · rw [if_neg h10, if_neg h11, if_neg hgt,
            if_pos (by omega : (raw.data.filter Char.isDigit).length < 10)]

/-! ## C7: Parse Statistics increments -/

/-- C7 counterexample: a successful `clean_name` call and a successful
`clean_email` call each increment no counter, against the claim that every
normalizer call increments exactly one. -/
theorem C7_counterexample :
    (clean_name (some "bob")).2 = [] ∧
    (clean_email (some "ann@example.com")).2 = [] := by
  exact ⟨by decide, by decide⟩

/-- C7 (amended): every `clean_age`, `clean_salary`, `clean_phone` and
`clean_date` call increments exactly one counter of its field; `clean_name`
increments none; `clean_email` increments exactly one counter
(`invalid_emails_removed`) precisely when its input is non-null and fails
validation, and increments none otherwise (null input or success). -/
theorem C7_parse_statistics :
    (∀ v, (clean_age v).2 = ["age_numeric_parsed"] ∨
      (clean_age v).2 = ["age_text_parsed"] ∨ (clean_age v).2 = ["age_failed"]) ∧
    (∀ v, (clean_salary v).2 = ["salary_numeric_parsed"] ∨
      (clean_salary v).2 = ["salary_text_parsed"] ∨ (clean_salary v).2 = ["salary_failed"]) ∧
    (∀ v, (clean_phone v).2 = ["phone_parsed_us"] ∨
      (clean_phone v).2 = ["phone_parsed_intl"] ∨ (clean_phone v).2 = ["phone_failed"]) ∧
    (∀ p v, (clean_date p v).2 = ["date_parsed"] ∨ (clean_date p v).2 = ["date_failed"]) ∧
    (∀ v, (clean_name v).2 = []) ∧
    ((clean_email none).2 = [] ∧
      ∀ s, (clean_email (some s)).2 =
        if emailOk (pyLower (pyStrip s)) then [] else ["invalid_emails_removed"]) := by
  refine ⟨fun v => ?_, fun v => ?_, fun v => ?_, fun p v => ?_, fun v => ?_, rfl, fun s => ?_⟩
  · cases v with
    | none => simp [clean_age]
    | some s => simp only [clean_age]; split <;> [skip; split] <;> simp
  · cases v with
    | none => simp [clean_salary]
    | some s => simp only [clean_salary]; split <;> [skip; split] <;> simp
  · cases v with
    | none => simp [clean_phone]
    | some s => simp only [clean_phone]; split <;> [skip; split] <;> [skip; skip; split] <;> simp
  · cases v with
    | none => simp [clean_date]
    | some s => simp only [clean_date]; split <;> [skip; split] <;> simp
  · cases v with
    | none => simp [clean_name]
    | some s => simp [clean_name]
  · by_cases h : emailOk (pyLower (pyStrip s)) <;> simp [clean_email, h]

/-! ## C8: output formats of the normalizers -/

/-- The `(DDD) DDD-DDDD` shape. -/
def isUSPhoneShape (s : String) : Bool :=
  match s.data with
  | '(' :: a :: b :: c :: ')' :: ' ' :: d :: e :: f :: '-' :: g :: h :: i :: j :: [] =>
    a.isDigit && b.isDigit && c.isDigit && d.isDigit && e.isDigit && f.isDigit &&
      g.isDigit && h.isDigit && i.isDigit && j.isDigit
  | _ => false

/-- The `+<digits>` international shape (more than 10 digits). -/
def isIntlPhoneShape (s : String) : Bool :=
  match s.data with
  | '+' :: rest => decide (rest.length > 10) && rest.all Char.isDigit
  | _ => false

/-- The `YYYY-MM-DD` shape. -/
def isIsoShape (s : String) : Bool :=
  match s.data with
  | [a, b, c, d, e, f, g, h, i, j] =>
    a.isDigit && b.isDigit && c.isDigit && d.isDigit && e = '-' &&
      f.isDigit && g.isDigit && h = '-' && i.isDigit && j.isDigit
  | _ => false

theorem digit10_isDigit (n : ℕ) : (digit10 n).isDigit = true := by
  have h : ∀ k, k < 10 → (Nat.digitChar k).isDigit = true := by decide
  exact h (n % 10) (Nat.mod_lt _ (by omega))

theorem isIsoShape_isoFormat (dt : Date) : isIsoShape (isoFormat dt) = true := by
  simp [isoFormat, isIsoShape, digit10_isDigit]

theorem usPhoneFormat_shape (d : List Char) (hlen : d.length = 10)
    (hd : ∀ c ∈ d, c.isDigit) : isUSPhoneShape (usPhoneFormat d) = true := by
  rcases d with _ | ⟨c0, d⟩; · simp at hlen
  rcases d with _ | ⟨c1, d⟩; · simp at hlen
  rcases d with _ | ⟨c2, d⟩; · simp at hlen
  rcases d with _ | ⟨c3, d⟩; · simp at hlen
  rcases d with _ | ⟨c4, d⟩; · simp at hlen
  rcases d with _ | ⟨c5, d⟩; · simp at hlen
  rcases d with _ | ⟨c6, d⟩; · simp at hlen
  rcases d with _ | ⟨c7, d⟩; · simp at hlen
  rcases d with _ | ⟨c8, d⟩; · simp at hlen
  rcases d with _ | ⟨c9, d⟩; · simp at hlen
  rcases d with _ | ⟨c10, d⟩
  · simp only [usPhoneFormat, isUSPhoneShape]
    have h0 := hd c0 (by simp); have h1 := hd c1 (by simp)
    have h2 := hd c2 (by simp); have h3 := hd c3 (by simp)
    have h4 := hd c4 (by simp); have h5 := hd c5 (by simp)
    have h6 := hd c6 (by simp); have h7 := hd c7 (by simp)
    have h8 := hd c8 (by simp); have h9 := hd c9 (by simp)
    simp_all [String.append]
  · simp at hlen

theorem all_isDigit_filter (l : List Char) :
    (l.filter Char.isDigit).all Char.isDigit = true := by
  rw [List.all_eq_true]
  intro c hc
  exact (List.mem_filter.mp hc).2

/-- C8 counterexample: the claim says negative results are invalid for age
and salary, but both cleaners accept a leading minus sign and return
negative values. -/
theorem C8_counterexample :
    (clean_age (some "-5")).1 = some (-5) ∧ (-5 : ℤ) < 0 ∧
    (clean_salary (some "-100")).1 = some (-100) ∧ (-100 : ℚ) < 0 := by
  exact ⟨by decide, by decide, by decide, by decide⟩

/-- C8 (amended): each normalizer returns null or a value of the canonical
shape — a phone result is always `(DDD) DDD-DDDD` or `+<digits>`, a date
result is always `YYYY-MM-DD` — but the age and salary results are integers
resp. rationals that may be negative (the non-negativity clause fails). -/
theorem C8_output_formats :
    (∀ v t, (clean_phone v).1 = some t →
      isUSPhoneShape t = true ∨ isIntlPhoneShape t = true) ∧
    (∀ p v t, (clean_date p v).1 = some t → isIsoShape t = true) := by
  constructor
  · intro v t ht
    cases v with
    | none => simp [clean_phone] at ht
    | some raw =>
      simp only [clean_phone] at ht
      by_cases h10 : (raw.data.filter Char.isDigit).length = 10
      · simp only [h10, if_true] at ht
        obtain rfl : usPhoneFormat (raw.data.filter Char.isDigit) = t := by
          simpa using ht
        left
        exact usPhoneFormat_shape _ h10
          (fun c hc => (List.mem_filter.mp hc).2)
      · by_cases h11 : (raw.data.filter Char.isDigit).length = 11 ∧
          (raw.data.filter Char.isDigit).head? = some '1'
        · simp only [h10, if_false, h11, if_true] at ht
          obtain rfl : usPhoneFormat ((raw.data.filter Char.isDigit).drop 1) = t := by
            simpa using ht
          left
          refine usPhoneFormat_shape _ ?_ ?_
          · rw [List.length_drop]; omega
          · intro c hc
            exact (List.mem_filter.mp (List.mem_of_mem_drop hc)).2
        · by_cases hgt : (raw.data.filter Char.isDigit).length > 10
          · simp only [h10, if_false, h11, if_false, hgt, if_true] at ht
            obtain rfl : "+" ++ (⟨raw.data.filter Char.isDigit⟩ : String) = t := by
              simpa using ht
            right
            simp only [isIntlPhoneShape, String.append]
            simp [all_isDigit_filter, hgt]
          · rw [if_neg h10, if_neg h11, if_neg hgt] at ht
            simp at ht
  · intro p v t ht
    cases v with
    | none => simp [clean_date] at ht
    | some s =>
      simp only [clean_date] at ht
      cases hp : p false s with
      | some dt =>
        simp only [hp] at ht
        obtain rfl : isoFormat dt = t := by simpa using ht
        exact isIsoShape_isoFormat dt
      | none =>
        simp only [hp] at ht
        cases hq : p true s with
        | some dt =>
          simp only [hq] at ht
          obtain rfl : isoFormat dt = t := by simpa using ht
          exact isIsoShape_isoFormat dt
        | none => simp [hq] at ht

/-- C8 witness: concrete phone and date outputs of the stated shapes. -/
theorem C8_witness :
    (isUSPhoneShape "(555) 123-4567" = true ∨ isIntlPhoneShape "(555) 123-4567" = true) ∧
    isIsoShape "2024-01-02" = true :=
  ⟨C8_output_formats.1 (some "555-123-4567") "(555) 123-4567" (by decide),
   C8_output_formats.2 (fun _ _ => some ⟨2024, 1, 2⟩) (some "x") "2024-01-02" (by decide)⟩

/-! ## The merge reconciler of `merge_customers.py`

A cell value is null (`None`/NaN), a string, or a number; a row is the
ordered column-to-value mapping of a dataframe record.  `pd.to_datetime`
is external library code and enters as a parameter `pdate`.  A `none`
result of the whole merge models an uncaught exception. -/

inductive Value where
  | vnull : Value
  | vstr : String → Value
  | vnum : ℚ → Value
deriving DecidableEq, Repr

abbrev Row := List (String × Value)

/-- A logged conflict `(cid, col, q1_value, q2_value)`. -/
abbrev Conflict := Value × String × Value × Value

/-- Reading a cell; an absent column is NaN (pandas `concat` aligns the
frames, filling missing columns with NaN). -/
def getCol (r : Row) (c : String) : Value :=
  match r.find? (fun p => p.1 == c) with
  | some p => p.2
  | none => .vnull

/-- `row[c] = v` on a dict: replace in place, else append. -/
def setCol : Row → String → Value → Row
  | [], c, v => [(c, v)]
  | (c', v') :: r, c, v => if c' = c then (c, v) :: r else (c', v') :: setCol r c v

/-- `drop(columns=[c])`. -/
def dropColumn (r : Row) (c : String) : Row :=
  r.filter (fun p => p.1 ≠ c)

/-- `q["source"] = tag`. -/
def tagRow (src : String) (r : Row) : Row :=
  setCol r "source" (.vstr src)

/-- The grouping key `row["customer_id"]`. -/
def rowKey (r : Row) : Value :=
  getCol r "customer_id"

/-- First-occurrence deduplication, fuelled (the fuel, at least the length,
only serves structural recursion). -/
def dedupFirstGo [DecidableEq α] : ℕ → List α → List α
  | 0, l => l
  | _ + 1, [] => []
  | fuel + 1, a :: l => a :: dedupFirstGo fuel (l.filter (fun x => x ≠ a))

/-- `drop_duplicates()` / first-occurrence deduplication (also the
distinct-key collection of `groupby`). -/
def dedupFirst [DecidableEq α] (l : List α) : List α :=
  dedupFirstGo l.length l

/-- A total order on cell values (`groupby` sorts the group keys; for the
homogeneous key columns at hand any consistent total order is faithful). -/
def valueRank : Value → ℕ
  | .vnull => 0
  | .vnum _ => 1
  | .vstr _ => 2

/-- Lexicographic comparison by code point (Python string order). -/
def strLeB : List Char → List Char → Bool
  | [], _ => true
  | _ :: _, [] => false
  | a :: as, b :: bs =>
    if a.toNat < b.toNat then true
    else if b.toNat < a.toNat then false
    else strLeB as bs

def valueLeB : Value → Value → Bool
  | .vnum a, .vnum b => decide (a ≤ b)
  | .vstr a, .vstr b => strLeB a.data b.data
  | a, b => decide (valueRank a ≤ valueRank b)

def sortKeys (l : List Value) : List Value :=
  List.insertionSort (fun a b => valueLeB a b = true) l

/-- A Python float that is either NaN or an actual number (the merged
cells never hold infinities in this data). -/
inductive PyFloat where
  | fnan : PyFloat
  | fval : ℚ → PyFloat
deriving DecidableEq, Repr

/-- Python `float(x)` on a dataframe cell: numbers pass through, strings
are parsed (`ValueError` on failure is `none`), and a null cell — a NaN
float in a pandas row — converts *successfully* to the float NaN, which
then propagates through arithmetic instead of raising. -/
def toFloat : Value → Option PyFloat
  | .vnum q => some (.fval q)
  | .vstr s => (pyFloat s).map .fval
  | .vnull => some .fnan

/-- Float addition: NaN absorbs. -/
def addPy : PyFloat → PyFloat → PyFloat
  | .fval a, .fval b => .fval (a + b)
  | _, _ => .fnan

/-- Storing a float back into a cell: NaN is the null cell. -/
def valueOfPyFloat : PyFloat → Value
  | .fnan => .vnull
  | .fval q => .vnum q

/-- Date comparison (timestamps compare chronologically). -/
def dateLtB (a b : Date) : Bool :=
  decide (a.y < b.y) ||
    (decide (a.y = b.y) &&
      (decide (a.m < b.m) || (decide (a.m = b.m) && decide (a.d < b.d))))

/-- `<` on possibly-NaT timestamps: any comparison with NaT is False. -/
def optDateLt : Option Date → Option Date → Bool
  | some a, some b => dateLtB a b
  | _, _ => false

/-- Python `min(a, b)` = `b if b < a else a`, under NaT-comparison rules:
`min(d, NaT) = d` and `min(NaT, d) = NaT`. -/
def pyMinDate (a b : Option Date) : Option Date :=
  if optDateLt b a then b else a

/-- The conflict-branch body of the `merge_customers` group loop, applied to
the selected `q1_row`/`q2_row` (both present): start from the Q2 dict, sum
`total_purchases` as floats — a NaN side makes the stored sum NaN — and
fall back to the raw Q2 value only when a `float()` call raises; take the
earlier parseable `registration_date` (`NaT.strftime` raises, and the
`except` keeps the raw Q2 value), and log every remaining non-null
disagreeing column. -/
def resolveConflictRows (pdate : Value → Option Date) (cols : List String)
    (cid : Value) (r1 r2 : Row) : Row × List Conflict :=
  let m1 :=
    match toFloat (getCol r1 "total_purchases"), toFloat (getCol r2 "total_purchases") with
    | some a, some b => setCol r2 "total_purchases" (valueOfPyFloat (addPy a b))
    | _, _ => setCol r2 "total_purchases" (getCol r2 "total_purchases")
  let m2 :=
    match pyMinDate (pdate (getCol r1 "registration_date"))
        (pdate (getCol r2 "registration_date")) with
    | some dt => setCol m1 "registration_date" (.vstr (isoFormat dt))
    | none => setCol m1 "registration_date" (getCol r2 "registration_date")
  let confl := (cols.filter (fun c =>
      ¬ (c = "customer_id" ∨ c = "total_purchases" ∨ c = "registration_date" ∨ c = "source"))).filterMap
    (fun c =>
      if getCol r1 c ≠ .vnull ∧ getCol r2 c ≠ .vnull ∧ getCol r1 c ≠ getCol r2 c
      then some (cid, c, getCol r1 c, getCol r2 c) else none)
  (m2, confl)

/-- One iteration of the `groupby` loop.  A single-row group is kept as is.
Otherwise the first Q1 row and the first Q2 row are selected; if the group
has several rows but no Q2 row, both the `try` and its `except` fallback
index the missing row (`None["total_purchases"]`) — an uncaught
`TypeError`, modelled as `none`. -/
def mergeGroup (pdate : Value → Option Date) (cols : List String) (cid : Value)
    (group : List Row) : Option (Row × List Conflict) :=
  match group with
  | [g] => some (g, [])
  | _ =>
    match (group.filter (fun r => getCol r "source" == .vstr "Q1")).head?,
        (group.filter (fun r => getCol r "source" == .vstr "Q2")).head? with
    | none, some r2 => some (r2, [])
    | none, none => some ([], [])
    | some _, none => none
    | some r1, some r2 => some (resolveConflictRows pdate cols cid r1 r2)

/-- The `for cid, group in combined.groupby(...)` loop: an uncaught
exception in any group aborts the merge. -/
def mergeLoop (f : Value → Option (Row × List Conflict)) :
    List Value → Option (List (Row × List Conflict))
  | [] => some []
  | k :: ks =>
    match f k with
    | none => none
    | some x =>
      match mergeLoop f ks with
      | none => none
      | some xs => some (x :: xs)

/-- `group.columns`: the columns of the concatenated frame. -/
def columnsOf (rows : List Row) : List String :=
  dedupFirst (rows.flatMap (fun r => r.map Prod.fst))

/-- `merge_customers` from `merge_customers.py`: tag both inputs, concat,
drop exact duplicates, group by `customer_id` (sorted distinct non-null
keys, as `groupby` with its default `dropna` yields), resolve each group,
and drop the `source` column from the output rows. -/
def merge_customers (pdate : Value → Option Date) (q1 q2 : List Row) :
    Option (List Row × List Conflict) :=
  let q1t := q1.map (tagRow "Q1")
  let q2t := q2.map (tagRow "Q2")
  let combined := dedupFirst (q1t ++ q2t)
  let cols := columnsOf combined
  let keys := sortKeys ((dedupFirst (combined.map rowKey)).filter (fun k => k ≠ .vnull))
  match mergeLoop
      (fun k => mergeGroup pdate cols k (combined.filter (fun r => rowKey r == k))) keys with
  | none => none
  | some res =>
    some ((res.map Prod.fst).map (fun r => dropColumn r "source"), res.flatMap Prod.snd)

/-! ### Cell-level lemmas -/

theorem getCol_setCol_self (r : Row) (c : String) (v : Value) :
    getCol (setCol r c v) c = v := by
  induction r with
  | nil => simp [setCol, getCol]
  | cons p r ih =>
    obtain ⟨c', v'⟩ := p
    by_cases h : c' = c
    · simp [setCol, h, getCol]
    · simpa [setCol, h, getCol] using ih

theorem getCol_setCol_ne (r : Row) {c c' : String} (v : Value) (h : c' ≠ c) :
    getCol (setCol r c v) c' = getCol r c' := by
  induction r with
  | nil => simp [setCol, getCol, Ne.symm h]
  | cons p r ih =>
    obtain ⟨c0, v0⟩ := p
    by_cases h0 : c0 = c
    · subst h0
      simp [setCol, getCol, Ne.symm h]
    · by_cases h1 : c0 = c'
      · subst h1
        simp [setCol, h0, getCol, h]
      · simpa [setCol, h0, getCol, h1] using ih

theorem getCol_tagRow (s : String) (r : Row) {c : String} (h : c ≠ "source") :
    getCol (tagRow s r) c = getCol r c :=
  getCol_setCol_ne r _ h

theorem getCol_tagRow_source (s : String) (r : Row) :
    getCol (tagRow s r) "source" = .vstr s :=
  getCol_setCol_self r _ _

theorem rowKey_tagRow (s : String) (r : Row) : rowKey (tagRow s r) = rowKey r :=
  getCol_tagRow s r (by decide)

theorem getCol_dropColumn (r : Row) {c d : String} (h : c ≠ d) :
    getCol (dropColumn r d) c = getCol r c := by
  induction r with
  | nil => simp [dropColumn, getCol]
  | cons p r ih =>
    obtain ⟨c0, v0⟩ := p
    by_cases h0 : c0 = d
    · subst h0
      simpa [dropColumn, getCol, Ne.symm h] using ih
    · by_cases h1 : c0 = c
      · subst h1
        simp [dropColumn, h0, getCol, h]
      · simpa [dropColumn, h0, getCol, h1] using ih

theorem rowKey_dropColumn_source (r : Row) :
    rowKey (dropColumn r "source") = rowKey r :=
  getCol_dropColumn r (by decide)

/-! ### `dedupFirst` lemmas -/

theorem mem_dedupFirstGo [DecidableEq α] (fuel : ℕ) {l : List α} {a : α} :
    a ∈ dedupFirstGo fuel l ↔ a ∈ l := by
  induction fuel generalizing l with
  | zero => rw [dedupFirstGo]
  | succ fuel ih =>
    cases l with
    | nil => rw [dedupFirstGo]
    | cons b l =>
      rw [dedupFirstGo]
      by_cases h : a = b
      · simp [h]
      · simp only [List.mem_cons, ih, List.mem_filter, h, false_or]
        constructor
        · exact fun hx => hx.1
        · exact fun hx => ⟨hx, by simpa using h⟩

theorem mem_dedupFirst [DecidableEq α] {l : List α} {a : α} :
    a ∈ dedupFirst l ↔ a ∈ l :=
  mem_dedupFirstGo _

theorem nodup_dedupFirstGo [DecidableEq α] (fuel : ℕ) {l : List α}
    (hf : l.length ≤ fuel) : (dedupFirstGo fuel l).Nodup := by
  induction fuel generalizing l with
  | zero =>
    rw [Nat.le_zero, List.length_eq_zero] at hf
    subst hf
    rw [dedupFirstGo]
    exact List.nodup_nil
  | succ fuel ih =>
    cases l with
    | nil => rw [dedupFirstGo]; exact List.nodup_nil
    | cons b l =>
      rw [dedupFirstGo]
      refine List.Nodup.cons (fun hmem => ?_) (ih ?_)
      · have := mem_dedupFirstGo fuel |>.mp hmem
        simp at this
      · have := List.length_filter_le (fun x => x ≠ b) l
        simp only [List.length_cons, Nat.succ_le_succ_iff] at hf
        omega

theorem nodup_dedupFirst [DecidableEq α] (l : List α) : (dedupFirst l).Nodup :=
  nodup_dedupFirstGo _ le_rfl

theorem filter_ne_of_not_mem [DecidableEq α] {l : List α} {a : α} (h : a ∉ l) :
    l.filter (fun x => x ≠ a) = l := by
  rw [List.filter_eq_self]
  intro b hb
  simp only [ne_eq, decide_eq_true_eq]
  rintro rfl
  exact h hb

theorem dedupFirstGo_eq_self [DecidableEq α] (fuel : ℕ) {l : List α}
    (h : l.Nodup) : dedupFirstGo fuel l = l := by
  induction fuel generalizing l with
  | zero => rw [dedupFirstGo]
  | succ fuel ih =>
    cases l with
    | nil => rw [dedupFirstGo]
    | cons a l =>
      rw [dedupFirstGo, filter_ne_of_not_mem (List.nodup_cons.mp h).1,
        ih (List.nodup_cons.mp h).2]

theorem dedupFirst_eq_self [DecidableEq α] {l : List α} (h : l.Nodup) :
    dedupFirst l = l :=
  dedupFirstGo_eq_self _ h

theorem dedupFirstGo_append_self [DecidableEq α] {l : List α} (h : l.Nodup)
    (fuel : ℕ) (hf : 2 * l.length ≤ fuel + 1) :
    dedupFirstGo fuel (l ++ l) = l := by
  induction l generalizing fuel with
  | nil => cases fuel <;> simp [dedupFirstGo]
  | cons a l ih =>
    have ha : a ∉ l := (List.nodup_cons.mp h).1
    have hl : l.Nodup := (List.nodup_cons.mp h).2
    have hstep : (l ++ a :: l).filter (fun x => x ≠ a) = l ++ l := by
      rw [List.filter_append, filter_ne_of_not_mem ha]
      congr 1
      rw [List.filter_cons_of_neg (by simp), filter_ne_of_not_mem ha]
    obtain ⟨fuel', rfl⟩ : ∃ fuel', fuel = fuel' + 1 := by
      cases fuel with
      | zero => simp [List.length_cons] at hf; omega
      | succ f => exact ⟨f, rfl⟩
    rw [List.cons_append, dedupFirstGo, hstep, ih hl]
    simp only [List.length_cons] at hf
    omega

theorem dedupFirst_append_self [DecidableEq α] {l : List α} (h : l.Nodup) :
    dedupFirst (l ++ l) = l := by
  rw [dedupFirst]
  refine dedupFirstGo_append_self h _ ?_
  rw [List.length_append]
  omega

/-! ### Key/group lemmas -/

/-- `l.find?` on a row list with pairwise-distinct keys gives the whole
filter. -/
theorem filter_eq_find_of_nodup_keys {α β : Type} [DecidableEq β] {f : α → β}
    {l : List α} (h : (l.map f).Nodup) (k : β) :
    l.filter (fun x => f x == k) = (l.find? (fun x => f x == k)).toList := by
  induction l with
  | nil => simp
  | cons a l ih =>
    have ha : f a ∉ l.map f := (List.nodup_cons.mp (by simpa using h)).1
    have hl : (l.map f).Nodup := (List.nodup_cons.mp (by simpa using h)).2
    by_cases hak : f a = k
    · have : l.filter (fun x => f x == k) = [] := by
        rw [List.filter_eq_nil_iff]
        intro b hb hbk
        exact ha (hak ▸ (by simpa using hbk) ▸ List.mem_map_of_mem f hb)
      simp [List.filter_cons, List.find?_cons, hak, this]
    · simp only [List.filter_cons, List.find?_cons]
      have : (f a == k) = false := by simpa using hak
      simp [this, ih hl]

theorem findRow_map_tag (s : String) (l : List Row) (k : Value) :
    (l.map (tagRow s)).find? (fun r => rowKey r == k) =
      ((l.find? (fun r => rowKey r == k)).map (tagRow s)) := by
  have hp : ((fun r => rowKey r == k) ∘ tagRow s) = (fun r => rowKey r == k) := by
    funext r
    simp [Function.comp, rowKey_tagRow]
  rw [List.find?_map, hp]

theorem map_rowKey_tagged (s : String) (l : List Row) :
    (l.map (tagRow s)).map rowKey = l.map rowKey := by
  rw [List.map_map]
  exact List.map_congr_left (fun r _ => rowKey_tagRow s r)

theorem nodup_tagged (s : String) {q : List Row} (h : (q.map rowKey).Nodup) :
    (q.map (tagRow s)).Nodup := by
  refine (h.of_map rowKey).map_on ?_
  intro x hx y hy hxy
  exact List.inj_on_of_nodup_map h hx hy
    (by rw [← rowKey_tagRow s x, hxy, rowKey_tagRow])

theorem disjoint_tagged (q1 q2 : List Row) :
    (q1.map (tagRow "Q1")).Disjoint (q2.map (tagRow "Q2")) := by
  intro r h1 h2
  simp only [List.mem_map] at h1 h2
  obtain ⟨a, _, rfl⟩ := h1
  obtain ⟨b, _, hb⟩ := h2
  have := congrArg (fun row => getCol row "source") hb
  simp [getCol_tagRow_source] at this

/-! ### The merge loop -/

theorem mergeLoop_all_some {f : Value → Option (Row × List Conflict)}
    {g : Value → Row × List Conflict} {K : List Value}
    (h : ∀ k ∈ K, f k = some (g k)) : mergeLoop f K = some (K.map g) := by
  induction K with
  | nil => rfl
  | cons k K ih =>
    rw [mergeLoop, h k (by simp), ih (fun k' hk' => h k' (by simp [hk']))]
    rfl

theorem mergeLoop_none_of_mem {f : Value → Option (Row × List Conflict)}
    {K : List Value} {k : Value} (hk : k ∈ K) (hf : f k = none) :
    mergeLoop f K = none := by
  induction K with
  | nil => simp at hk
  | cons a K ih =>
    rw [mergeLoop]
    rcases List.mem_cons.mp hk with rfl | hk'
    · rw [hf]
    · cases hfa : f a
      · rfl
      · rw [ih hk']

/-! ### A closed form for a complete merge run -/

/-- The (at most one) row of a source batch carrying a given key. -/
def findRow (l : List Row) (k : Value) : Option Row :=
  l.find? (fun r => rowKey r == k)

/-- The columns of the concatenated tagged frame. -/
def mergedColumns (q1 q2 : List Row) : List String :=
  columnsOf (q1.map (tagRow "Q1") ++ q2.map (tagRow "Q2"))

/-- The sorted distinct keys a merge run iterates over. -/
def mergeKeys (q1 q2 : List Row) : List Value :=
  sortKeys (dedupFirst (q1.map rowKey ++ q2.map rowKey))

/-- What one group resolves to, per source membership of its key. -/
def resolveKey (pdate : Value → Option Date) (cols : List String)
    (q1 q2 : List Row) (k : Value) : Row × List Conflict :=
  match findRow q1 k, findRow q2 k with
  | some a, some b => resolveConflictRows pdate cols k (tagRow "Q1" a) (tagRow "Q2" b)
  | some a, none => (tagRow "Q1" a, [])
  | none, some b => (tagRow "Q2" b, [])
  | none, none => ([], [])

theorem mem_mergeKeys {q1 q2 : List Row} {k : Value} :
    k ∈ mergeKeys q1 q2 ↔ k ∈ q1.map rowKey ∨ k ∈ q2.map rowKey := by
  rw [mergeKeys, sortKeys, (List.perm_insertionSort _ _).mem_iff, mem_dedupFirst,
    List.mem_append]

theorem nodup_mergeKeys (q1 q2 : List Row) : (mergeKeys q1 q2).Nodup := by
  rw [mergeKeys, sortKeys]
  exact (List.perm_insertionSort _ _).symm.nodup (nodup_dedupFirst _)

theorem findRow_isSome_of_mem {l : List Row} {k : Value}
    (h : k ∈ l.map rowKey) : (findRow l k).isSome := by
  rw [findRow, List.find?_isSome]
  obtain ⟨r, hr, rfl⟩ := List.mem_map.mp h
  exact ⟨r, hr, by simp⟩

theorem rowKey_of_findRow {l : List Row} {k : Value} {r : Row}
    (h : findRow l k = some r) : rowKey r = k := by
  simpa using List.find?_some h

theorem findRow_self {l : List Row} (h : (l.map rowKey).Nodup) {r : Row}
    (hr : r ∈ l) : findRow l (rowKey r) = some r := by
  induction l with
  | nil => simp at hr
  | cons a l ih =>
    rcases List.mem_cons.mp hr with rfl | hr'
    · simp [findRow, List.find?_cons]
    · have ha : rowKey a ∉ l.map rowKey := (List.nodup_cons.mp (by simpa using h)).1
      have hne : (rowKey a == rowKey r) = false := by
        simp only [beq_eq_false_iff_ne, ne_eq]
        intro hcontra
        exact ha (hcontra ▸ List.mem_map_of_mem rowKey hr')
      rw [findRow, List.find?_cons]
      simp only [hne]
      exact ih (List.nodup_cons.mp (by simpa using h)).2 hr'

/-- Under per-source key uniqueness and null-free keys, a merge run
completes, producing one resolved row per distinct key (in sorted key
order) and the concatenation of the per-key conflict logs. -/
theorem merge_customers_run (pdate : Value → Option Date) (q1 q2 : List Row)
    (h1 : (q1.map rowKey).Nodup) (h2 : (q2.map rowKey).Nodup)
    (h01 : Value.vnull ∉ q1.map rowKey) (h02 : Value.vnull ∉ q2.map rowKey) :
    merge_customers pdate q1 q2 =
      some ((mergeKeys q1 q2).map
              (fun k => dropColumn (resolveKey pdate (mergedColumns q1 q2) q1 q2 k).1 "source"),
            (mergeKeys q1 q2).flatMap
              (fun k => (resolveKey pdate (mergedColumns q1 q2) q1 q2 k).2)) := by
  have hnodupc : ((q1.map (tagRow "Q1")) ++ (q2.map (tagRow "Q2"))).Nodup :=
    List.nodup_append.mpr ⟨nodup_tagged _ h1, nodup_tagged _ h2, disjoint_tagged q1 q2⟩
  have hcomb := dedupFirst_eq_self hnodupc
  have hkeymap : ((q1.map (tagRow "Q1")) ++ (q2.map (tagRow "Q2"))).map rowKey =
      q1.map rowKey ++ q2.map rowKey := by
    rw [List.map_append, map_rowKey_tagged, map_rowKey_tagged]
  have hfilter : (dedupFirst (q1.map rowKey ++ q2.map rowKey)).filter
      (fun k => k ≠ Value.vnull) = dedupFirst (q1.map rowKey ++ q2.map rowKey) := by
    rw [List.filter_eq_self]
    intro k hk
    rcases List.mem_append.mp (mem_dedupFirst.mp hk) with hx | hx
    · simp only [ne_eq, decide_eq_true_eq]
      rintro rfl
      exact h01 hx
    · simp only [ne_eq, decide_eq_true_eq]
      rintro rfl
      exact h02 hx
  have hgroup : ∀ k : Value,
      ((q1.map (tagRow "Q1")) ++ (q2.map (tagRow "Q2"))).filter (fun r => rowKey r == k) =
        ((findRow q1 k).map (tagRow "Q1")).toList ++
          ((findRow q2 k).map (tagRow "Q2")).toList := by
    intro k
    rw [List.filter_append,
      filter_eq_find_of_nodup_keys (f := rowKey) (by rw [map_rowKey_tagged]; exact h1) k,
      filter_eq_find_of_nodup_keys (f := rowKey) (by rw [map_rowKey_tagged]; exact h2) k,
      findRow_map_tag, findRow_map_tag]
    rfl
  have hmg : ∀ k ∈ sortKeys (dedupFirst (q1.map rowKey ++ q2.map rowKey)),
      mergeGroup pdate (columnsOf (q1.map (tagRow "Q1") ++ q2.map (tagRow "Q2"))) k
          (((q1.map (tagRow "Q1")) ++ (q2.map (tagRow "Q2"))).filter (fun r => rowKey r == k)) =
        some (resolveKey pdate (mergedColumns q1 q2) q1 q2 k) := by
    intro k hk
    rw [hgroup k]
    cases hf1 : findRow q1 k with
    | some a =>
      cases hf2 : findRow q2 k with
      | some b =>
        simp only [Option.map_some', Option.toList_some, List.singleton_append]
        simp [mergeGroup, resolveKey, hf1, hf2, getCol_tagRow_source, mergedColumns]
      | none =>
        simp only [Option.map_some', Option.toList_some, Option.map_none', Option.toList_none,
          List.append_nil]
        simp [mergeGroup, resolveKey, hf1, hf2]
    | none =>
      cases hf2 : findRow q2 k with
      | some b =>
        simp only [Option.map_some', Option.toList_some, Option.map_none', Option.toList_none,
          List.nil_append]
        simp [mergeGroup, resolveKey, hf1, hf2]
      | none =>
        exfalso
        have hk' : k ∈ q1.map rowKey ∨ k ∈ q2.map rowKey := mem_mergeKeys.mp hk
        rcases hk' with hx | hx
        · have := findRow_isSome_of_mem hx
          rw [hf1] at this
          simp at this
        · have := findRow_isSome_of_mem hx
          rw [hf2] at this
          simp at this
  simp only [merge_customers, hcomb, hkeymap, hfilter]
  rw [mergeLoop_all_some hmg]
  simp only [List.map_map, List.flatMap_map]
  rfl

/-! ### Locating a key's row in the output -/

/-- The output record carrying a given entity key. -/
def outputRowFor (rows : List Row) (k : Value) : Option Row :=
  rows.find? (fun r => rowKey r == k)

theorem rowKey_setCol (r : Row) {c : String} (v : Value) (h : c ≠ "customer_id") :
    rowKey (setCol r c v) = rowKey r :=
  getCol_setCol_ne r v (Ne.symm h)

theorem rowKey_resolveKey (pdate : Value → Option Date) (cols : List String)
    (q1 q2 : List Row) {k : Value} (hk : k ∈ mergeKeys q1 q2) :
    rowKey (dropColumn (resolveKey pdate cols q1 q2 k).1 "source") = k := by
  rw [rowKey_dropColumn_source, resolveKey]
  cases hf1 : findRow q1 k with
  | some a =>
    cases hf2 : findRow q2 k with
    | some b =>
      have hb := rowKey_of_findRow hf2
      simp only [resolveConflictRows]
      split <;> split <;>
        rw [rowKey_setCol _ _ (show "registration_date" ≠ "customer_id" by decide),
          rowKey_setCol _ _ (show "total_purchases" ≠ "customer_id" by decide),
          rowKey_tagRow, hb]
    | none => simpa [rowKey_tagRow] using rowKey_of_findRow hf1
  | none =>
    cases hf2 : findRow q2 k with
    | some b => simpa [rowKey_tagRow] using rowKey_of_findRow hf2
    | none =>
      exfalso
      rcases mem_mergeKeys.mp hk with hx | hx
      · have := findRow_isSome_of_mem hx
        rw [hf1] at this
        simp at this
      · have := findRow_isSome_of_mem hx
        rw [hf2] at this
        simp at this

theorem find?_map_keyed {g : Value → Row} {K : List Value} (hK : K.Nodup)
    (hkey : ∀ k ∈ K, rowKey (g k) = k) {k : Value} (hk : k ∈ K) :
    (K.map g).find? (fun r => rowKey r == k) = some (g k) := by
  induction K with
  | nil => simp at hk
  | cons k0 K ih =>
    simp only [List.map_cons, List.find?_cons]
    by_cases h : k0 = k
    · subst h
      simp [hkey k0 (by simp)]
    · have hne : (rowKey (g k0) == k) = false := by
        rw [hkey k0 (by simp)]
        simpa using h
      simp only [hne]
      refine ih (List.nodup_cons.mp hK).2 (fun k' hk' => hkey k' (by simp [hk'])) ?_
      rcases List.mem_cons.mp hk with rfl | h'
      · exact absurd rfl h
      · exact h'

/-- Under the run hypotheses, `outputRowFor` of the merge output is exactly
the resolved row of the requested key. -/
theorem outputRowFor_run (pdate : Value → Option Date) (q1 q2 : List Row)
    {k : Value} (hk : k ∈ mergeKeys q1 q2) :
    outputRowFor ((mergeKeys q1 q2).map
        (fun k => dropColumn (resolveKey pdate (mergedColumns q1 q2) q1 q2 k).1 "source")) k =
      some (dropColumn (resolveKey pdate (mergedColumns q1 q2) q1 q2 k).1 "source") := by
  exact find?_map_keyed (nodup_mergeKeys q1 q2)
    (fun k' hk' => rowKey_resolveKey pdate (mergedColumns q1 q2) q1 q2 hk') hk

/-! ### C10: duplicate keys within one source -/

theorem setCol_of_absent {r : Row} {c : String}
    (h : r.find? (fun p => p.1 == c) = none) (v : Value) :
    setCol r c v = r ++ [(c, v)] := by
  induction r with
  | nil => simp [setCol]
  | cons p r ih =>
    obtain ⟨c0, v0⟩ := p
    rw [List.find?_cons] at h
    by_cases h0 : c0 = c
    · simp [h0] at h
    · simp only [show ((c0, v0).1 == c) = false by simpa using h0] at h
      rw [setCol, if_neg h0, ih h, List.cons_append]

theorem tagRow_inj_of_absent {r r' : Row} {s : String}
    (h : r.find? (fun p => p.1 == "source") = none)
    (h' : r'.find? (fun p => p.1 == "source") = none)
    (heq : tagRow s r = tagRow s r') : r = r' := by
  rw [tagRow, setCol_of_absent h, tagRow, setCol_of_absent h'] at heq
  exact List.append_cancel_right heq

/-- C10 (amended, Q1 side): two distinct same-key rows inside source Q1
whose key is absent from Q2 make the whole merge raise (`none`): the group
has several rows but no Q2 row, and both the `try` and its `except`
fallback index `q2_row = None`. -/
theorem C10_duplicate_q1_key_crashes (pdate : Value → Option Date)
    (q1 q2 : List Row) (r1 r2 : Row) (hr1 : r1 ∈ q1) (hr2 : r2 ∈ q1)
    (hne : r1 ≠ r2) (hkey : rowKey r2 = rowKey r1) (hk0 : rowKey r1 ≠ .vnull)
    (habs : rowKey r1 ∉ q2.map rowKey)
    (hs1 : r1.find? (fun p => p.1 == "source") = none)
    (hs2 : r2.find? (fun p => p.1 == "source") = none) :
    merge_customers pdate q1 q2 = none := by
  set k := rowKey r1 with hkdef
  set t1 := tagRow "Q1" r1 with ht1
  set t2 := tagRow "Q1" r2 with ht2
  set combined := dedupFirst (q1.map (tagRow "Q1") ++ q2.map (tagRow "Q2")) with hcdef
  have htne : t1 ≠ t2 := fun hcontra => hne (tagRow_inj_of_absent hs1 hs2 hcontra)
  have hmem1 : t1 ∈ combined := by
    rw [hcdef, mem_dedupFirst]
    exact List.mem_append_left _ (List.mem_map_of_mem _ hr1)
  have hmem2 : t2 ∈ combined := by
    rw [hcdef, mem_dedupFirst]
    exact List.mem_append_left _ (List.mem_map_of_mem _ hr2)
  have hkey1 : rowKey t1 = k := by rw [ht1, rowKey_tagRow]
  have hkey2 : rowKey t2 = k := by rw [ht2, rowKey_tagRow, hkey]
  have hsrc : ∀ r ∈ combined, rowKey r = k → getCol r "source" = .vstr "Q1" := by
    intro r hr hkr
    rcases List.mem_append.mp (mem_dedupFirst.mp (hcdef ▸ hr)) with hx | hx
    · obtain ⟨a, _, rfl⟩ := List.mem_map.mp hx
      exact getCol_tagRow_source _ _
    · exfalso
      obtain ⟨b, hb, rfl⟩ := List.mem_map.mp hx
      rw [rowKey_tagRow] at hkr
      exact habs (hkr ▸ List.mem_map_of_mem rowKey hb)
  have hkeymem : k ∈ (dedupFirst (combined.map rowKey)).filter (fun x => x ≠ Value.vnull) := by
    rw [List.mem_filter, mem_dedupFirst]
    exact ⟨hkey1 ▸ List.mem_map_of_mem rowKey hmem1, by simpa using hk0⟩
  set group := combined.filter (fun r => rowKey r == k) with hgdef
  have hgm1 : t1 ∈ group := List.mem_filter.mpr ⟨hmem1, by simp [hkey1]⟩
  have hgm2 : t2 ∈ group := List.mem_filter.mpr ⟨hmem2, by simp [hkey2]⟩
  have hq2nil : group.filter (fun r => getCol r "source" == Value.vstr "Q2") = [] := by
    rw [List.filter_eq_nil_iff]
    intro r hr
    obtain ⟨hrc, hrk⟩ := List.mem_filter.mp hr
    rw [hsrc r hrc (by simpa using hrk)]
    simp
  have hq1all : group.filter (fun r => getCol r "source" == Value.vstr "Q1") = group := by
    rw [List.filter_eq_self]
    intro r hr
    obtain ⟨hrc, hrk⟩ := List.mem_filter.mp hr
    rw [hsrc r hrc (by simpa using hrk)]
    simp
  have hnone : mergeGroup pdate (columnsOf combined) k group = none := by
    rcases hg : group with _ | ⟨g0, _ | ⟨g1, rest⟩⟩
    · rw [hg] at hgm1
      simp at hgm1
    · rw [hg] at hgm1 hgm2
      simp only [List.mem_singleton] at hgm1 hgm2
      exact absurd (hgm1.trans hgm2.symm) htne
    · rw [hg] at hq2nil hq1all
      simp only [mergeGroup, hq2nil, hq1all]
      simp
  have hloop : mergeLoop
      (fun k' => mergeGroup pdate (columnsOf combined) k'
        (combined.filter (fun r => rowKey r == k')))
      (sortKeys ((dedupFirst (combined.map rowKey)).filter (fun x => x ≠ Value.vnull))) =
      none := by
    refine mergeLoop_none_of_mem (k := k) ?_ ?_
    · rw [sortKeys, (List.perm_insertionSort _ _).mem_iff]
      exact hkeymem
    · rw [← hgdef]
      exact hnone
  simp only [merge_customers, ← hcdef, hloop]

/-- A date parser refusing every input (the behaviour of `pd.to_datetime`
with `errors="coerce"` on unparseable data). -/
def pdateNone : Value → Option Date := fun _ => none

/-- Example customer rows. -/
def exRowA : Row :=
  [("customer_id", .vstr "9"), ("name", .vstr "A"),
   ("registration_date", .vnull), ("total_purchases", .vnum 1)]

def exRowB : Row :=
  [("customer_id", .vstr "9"), ("name", .vstr "B"),
   ("registration_date", .vnull), ("total_purchases", .vnum 2)]

/-- C10 counterexample: the claim covers duplicates in either single
source, but a key duplicated within Q2 (and absent from Q1) does NOT raise:
`q1_row is None` skips the whole conflict block and the merge completes. -/
theorem C10_counterexample :
    (merge_customers pdateNone [] [exRowA, exRowB]).isSome = true := by
  decide

/-- C10 witness: a concrete Q1-side duplicate aborts the merge. -/
theorem C10_witness : merge_customers pdateNone [exRowA, exRowB] [] = none :=
  C10_duplicate_q1_key_crashes pdateNone [exRowA, exRowB] [] exRowA exRowB
    (by decide) (by decide) (by decide) (by decide) (by decide) (by decide)
    (by decide) (by decide)

/-! ### C2: merging a batch with itself -/

/-- What a self-merge does to one row: double a numeric `total_purchases`
(a NaN cell stays NaN), re-render a parseable `registration_date` as
`YYYY-MM-DD`, leave everything else unchanged (the appended `source` tag
is dropped again). -/
def selfMergeRow (pdate : Value → Option Date) (r : Row) : Row :=
  let t := tagRow "Q2" r
  let m1 :=
    match toFloat (getCol r "total_purchases") with
    | some a => setCol t "total_purchases" (valueOfPyFloat (addPy a a))
    | none => setCol t "total_purchases" (getCol r "total_purchases")
  let m2 :=
    match pdate (getCol r "registration_date") with
    | some dt => setCol m1 "registration_date" (.vstr (isoFormat dt))
    | none => setCol m1 "registration_date" (getCol r "registration_date")
  dropColumn m2 "source"

theorem pyMinDate_self (a : Option Date) : pyMinDate a a = a := by
  rw [pyMinDate, ite_self]

theorem resolveConflictRows_self (pdate : Value → Option Date)
    (cols : List String) (k : Value) (r : Row) :
    dropColumn (resolveConflictRows pdate cols k (tagRow "Q1" r) (tagRow "Q2" r)).1 "source" =
        selfMergeRow pdate r ∧
      (resolveConflictRows pdate cols k (tagRow "Q1" r) (tagRow "Q2" r)).2 = [] := by
  constructor
  · simp only [resolveConflictRows, selfMergeRow]
    rw [getCol_tagRow "Q1" r (show "total_purchases" ≠ "source" by decide),
      getCol_tagRow "Q2" r (show "total_purchases" ≠ "source" by decide),
      getCol_tagRow "Q1" r (show "registration_date" ≠ "source" by decide),
      getCol_tagRow "Q2" r (show "registration_date" ≠ "source" by decide),
      pyMinDate_self]
    cases toFloat (getCol r "total_purchases") <;>
      cases pdate (getCol r "registration_date") <;> rfl
  · simp only [resolveConflictRows]
    rw [List.filterMap_eq_nil_iff]
    intro c hc
    have hcs : c ≠ "source" := by
      have := (List.mem_filter.mp hc).2
      simp only [decide_eq_true_eq] at this
      intro hcontra
      exact this (Or.inr (Or.inr (Or.inr hcontra)))
    rw [if_neg]
    rintro ⟨-, -, h3⟩
    rw [getCol_tagRow "Q1" r hcs, getCol_tagRow "Q2" r hcs] at h3
    exact h3 rfl

/-- C2 (amended): merging a batch (with per-batch-unique, non-null keys)
with itself yields zero Conflict Records, and the output is — up to the
sorted group order — the input with each row's numeric `total_purchases`
doubled and its parseable `registration_date` re-rendered as `YYYY-MM-DD`
(non-numeric purchases and unparseable dates are unchanged). -/
theorem C2_self_merge (pdate : Value → Option Date) (B : List Row)
    (hn : (B.map rowKey).Nodup) (h0 : Value.vnull ∉ B.map rowKey) :
    ∃ out, merge_customers pdate B B = some (out, []) ∧
      out.Perm (B.map (selfMergeRow pdate)) := by
  have hK : mergeKeys B B = sortKeys (B.map rowKey) := by
    rw [mergeKeys, dedupFirst_append_self hn]
  have hres : ∀ k ∈ mergeKeys B B, ∃ r, findRow B k = some r ∧
      resolveKey pdate (mergedColumns B B) B B k =
        resolveConflictRows pdate (mergedColumns B B) k (tagRow "Q1" r) (tagRow "Q2" r) := by
    intro k hk
    have hx : k ∈ B.map rowKey := by
      rcases mem_mergeKeys.mp hk with hx | hx <;> exact hx
    obtain ⟨r, hfr⟩ := Option.isSome_iff_exists.mp (findRow_isSome_of_mem hx)
    exact ⟨r, hfr, by rw [resolveKey, hfr]⟩
  have hconfl : (mergeKeys B B).flatMap
      (fun k => (resolveKey pdate (mergedColumns B B) B B k).2) = [] := by
    rw [List.flatMap_eq_nil_iff]
    intro k hk
    obtain ⟨r, -, hrk⟩ := hres k hk
    rw [hrk]
    exact (resolveConflictRows_self pdate _ k r).2
  refine ⟨_, by rw [merge_customers_run pdate B B hn hn h0 h0, hconfl], ?_⟩
  have hperm : (mergeKeys B B).Perm (B.map rowKey) := by
    rw [hK, sortKeys]
    exact List.perm_insertionSort _ _
  have heq : (B.map rowKey).map
      (fun k => dropColumn (resolveKey pdate (mergedColumns B B) B B k).1 "source") =
      B.map (selfMergeRow pdate) := by
    rw [List.map_map]
    refine List.map_congr_left ?_
    intro r hr
    have hfr : findRow B (rowKey r) = some r := findRow_self hn hr
    show dropColumn (resolveKey pdate (mergedColumns B B) B B (rowKey r)).1 "source" =
      selfMergeRow pdate r
    simp only [resolveKey, hfr]
    exact (resolveConflictRows_self pdate _ (rowKey r) r).1
  exact heq ▸ hperm.map _

def exRowP : Row :=
  [("customer_id", .vstr "1"), ("name", .vstr "Ann"),
   ("registration_date", .vnull), ("total_purchases", .vnum 100)]

/-- C2 counterexample: reconciling a batch with itself is not the identity
on the deduplicated input — `total_purchases` is summed with itself, so a
row holding 100 comes out holding 200. -/
theorem C2_counterexample :
    (merge_customers pdateNone [exRowP] [exRowP]).map
        (fun p => p.1.map (fun r => getCol r "total_purchases")) =
      some [Value.vnum 200] ∧
    getCol exRowP "total_purchases" = Value.vnum 100 := by
  exact ⟨by decide, by decide⟩

/-- C2 witness: the amended self-merge description holds on a concrete
one-row batch. -/
theorem C2_witness :
    ∃ out, merge_customers pdateNone [exRowP] [exRowP] = some (out, []) ∧
      out.Perm ([exRowP].map (selfMergeRow pdateNone)) :=
  C2_self_merge pdateNone [exRowP] (by decide) (by decide)

/-! ### C4: the merged registration date -/

theorem pyMinDate_some_some (d1 d2 : Date) :
    pyMinDate (some d1) (some d2) = some (if dateLtB d2 d1 then d2 else d1) := by
  rw [pyMinDate]
  by_cases h : dateLtB d2 d1 <;> simp [optDateLt, h]

theorem pyMinDate_some_none (d1 : Date) : pyMinDate (some d1) none = some d1 := rfl

theorem pyMinDate_none_left (b : Option Date) : pyMinDate none b = none := by
  cases b <;> rfl

/-- C4 (amended): for a key present in both sources, the merged
`registration_date` is the ISO rendering of the earlier date when both
sides parse; when only the Q1 side parses it is the ISO rendering of the
*Q1* date (`min(d1, NaT)` evaluates to `d1`, not to the claim's Q2
fallback); only when the Q1 side fails to parse does the raw Q2 value
survive. -/
theorem C4_registration_date (pdate : Value → Option Date) (q1 q2 : List Row)
    (h1 : (q1.map rowKey).Nodup) (h2 : (q2.map rowKey).Nodup)
    (h01 : Value.vnull ∉ q1.map rowKey) (h02 : Value.vnull ∉ q2.map rowKey)
    {k : Value} {r1 r2 : Row}
    (hf1 : findRow q1 k = some r1) (hf2 : findRow q2 k = some r2)
    {out : List Row} {confl : List Conflict}
    (hm : merge_customers pdate q1 q2 = some (out, confl)) :
    ∃ m, outputRowFor out k = some m ∧
      getCol m "registration_date" =
        match pdate (getCol r1 "registration_date"),
            pdate (getCol r2 "registration_date") with
        | some d1, some d2 => .vstr (isoFormat (if dateLtB d2 d1 then d2 else d1))
        | some d1, none => .vstr (isoFormat d1)
        | none, _ => getCol r2 "registration_date" := by
  rw [merge_customers_run pdate q1 q2 h1 h2 h01 h02] at hm
  obtain ⟨hout, -⟩ := Prod.mk.injEq .. ▸ Option.some.inj hm
  subst hout
  have hk : k ∈ mergeKeys q1 q2 :=
    mem_mergeKeys.mpr (Or.inl (rowKey_of_findRow hf1 ▸
      List.mem_map_of_mem rowKey (List.mem_of_find?_eq_some hf1)))
  refine ⟨_, outputRowFor_run pdate q1 q2 hk, ?_⟩
  rw [getCol_dropColumn _ (show "registration_date" ≠ "source" by decide)]
  simp only [resolveKey, hf1, hf2, resolveConflictRows]
  rw [getCol_tagRow "Q1" r1 (show "registration_date" ≠ "source" by decide),
    getCol_tagRow "Q2" r2 (show "registration_date" ≠ "source" by decide)]
  cases hp1 : pdate (getCol r1 "registration_date") with
  | some d1 =>
    cases hp2 : pdate (getCol r2 "registration_date") with
    | some d2 =>
      rw [pyMinDate_some_some]
      exact getCol_setCol_self _ _ _
    | none =>
      rw [pyMinDate_some_none]
      exact getCol_setCol_self _ _ _
  | none =>
    rw [pyMinDate_none_left]
    simp only [getCol_setCol_self]

/-- A date parser accepting exactly the ISO string `2024-01-01` (the
behaviour of `pd.to_datetime` on this pair of inputs). -/
def pdateIso : Value → Option Date := fun v =>
  match v with
  | .vstr "2024-01-01" => some ⟨2024, 1, 1⟩
  | _ => none

def c4Row1 : Row :=
  [("customer_id", .vstr "1"), ("registration_date", .vstr "2024-01-01"),
   ("total_purchases", .vnum 1)]

def c4Row2 : Row :=
  [("customer_id", .vstr "1"), ("registration_date", .vstr "not a date"),
   ("total_purchases", .vnum 2)]

/-- C4 counterexample: when only the Q1 side parses, the output carries the
Q1 date (ISO-rendered), not the later source's raw value as claimed. -/
theorem C4_counterexample :
    (merge_customers pdateIso [c4Row1] [c4Row2]).map
        (fun p => p.1.map (fun r => getCol r "registration_date")) =
      some [Value.vstr "2024-01-01"] ∧
    getCol c4Row2 "registration_date" = Value.vstr "not a date" := by
  exact ⟨by decide, by decide⟩

def c4Out : List Row :=
  [[("customer_id", .vstr "1"), ("registration_date", .vstr "2024-01-01"),
    ("total_purchases", .vnum 3)]]

/-- C4 witness. -/
theorem C4_witness :
    ∃ m, outputRowFor c4Out (Value.vstr "1") = some m ∧
      getCol m "registration_date" =
        match pdateIso (getCol c4Row1 "registration_date"),
            pdateIso (getCol c4Row2 "registration_date") with
        | some d1, some d2 => Value.vstr (isoFormat (if dateLtB d2 d1 then d2 else d1))
        | some d1, none => Value.vstr (isoFormat d1)
        | none, _ => getCol c4Row2 "registration_date" :=
  C4_registration_date pdateIso [c4Row1] [c4Row2] (by decide) (by decide)
    (by decide) (by decide)
    (show findRow [c4Row1] (Value.vstr "1") = some c4Row1 by decide)
    (show findRow [c4Row2] (Value.vstr "1") = some c4Row2 by decide)
    (show merge_customers pdateIso [c4Row1] [c4Row2] = some (c4Out, []) by decide)

/-! ### C5: the merged purchase totals -/

/-- The actual number a cell converts to, if `float()` neither raises nor
yields NaN. -/
def toFloatNum (v : Value) : Option ℚ :=
  match toFloat v with
  | some (.fval x) => some x
  | _ => none

/-- The numeric value a row contributes to a purchase total. -/
def purchOf (r : Row) : ℚ :=
  (toFloatNum (getCol r "total_purchases")).getD 0

/-- Total purchase volume of a batch. -/
def sumPurch (rows : List Row) : ℚ :=
  (rows.map purchOf).sum

section SumLemmas

variable {α : Type} {M : Type} [AddCommMonoid M]

theorem sum_map_add_distrib (K : List α) (f g : α → M) :
    (K.map (fun k => f k + g k)).sum = (K.map f).sum + (K.map g).sum := by
  induction K with
  | nil => simp
  | cons a K ih =>
    simp only [List.map_cons, List.sum_cons, ih]
    rw [add_add_add_comm]

theorem sum_map_guard (K : List α) (p : α → Bool) (f : α → M)
    (h : ∀ k ∈ K, p k = false → f k = 0) :
    (K.map f).sum = ((K.filter p).map f).sum := by
  induction K with
  | nil => simp
  | cons a K ih =>
    rw [List.map_cons, List.sum_cons, ih (fun k hk => h k (List.mem_cons_of_mem a hk))]
    cases hpa : p a
    · rw [h a (List.mem_cons_self a K) hpa, List.filter_cons_of_neg (by simp [hpa]), zero_add]
    · rw [List.filter_cons_of_pos (by simp [hpa]), List.map_cons, List.sum_cons]

theorem filter_mem_perm [DecidableEq α] {K s : List α} (hK : K.Nodup) (hs : s.Nodup)
    (hsub : ∀ a ∈ s, a ∈ K) : (K.filter (fun a => a ∈ s)).Perm s := by
  rw [List.perm_ext_iff_of_nodup (hK.filter _) hs]
  intro a
  simp only [List.mem_filter, decide_eq_true_eq]
  exact ⟨fun h => h.2, fun h => ⟨hsub a h, h⟩⟩

end SumLemmas

theorem map_keyfun_eq {M : Type} {l : List Row} {f : Row → M}
    {g : Value → M} (hg : ∀ r ∈ l, g (rowKey r) = f r) :
    (l.map rowKey).map g = l.map f := by
  rw [List.map_map]
  exact List.map_congr_left hg

theorem toFloatNum_vnum (q : ℚ) : toFloatNum (.vnum q) = some q := rfl

theorem toFloat_of_toFloatNum {v : Value} {x : ℚ} (h : toFloatNum v = some x) :
    toFloat v = some (.fval x) := by
  rcases hv : toFloat v with _ | pf
  · rw [toFloatNum, hv] at h
    simp at h
  · cases pf with
    | fnan =>
      rw [toFloatNum, hv] at h
      simp at h
    | fval y =>
      rw [toFloatNum, hv] at h
      simp only [Option.some.injEq] at h
      rw [h]

/-- The purchase contribution a key draws from one source batch. -/
def keyPurch (q : List Row) (k : Value) : ℚ :=
  match findRow q k with
  | some r => purchOf r
  | none => 0

theorem keyPurch_of_not_mem {q : List Row} {k : Value}
    (h : k ∉ q.map rowKey) : keyPurch q k = 0 := by
  rw [keyPurch]
  cases hf : findRow q k with
  | none => rfl
  | some r =>
    exact absurd (rowKey_of_findRow hf ▸
      List.mem_map_of_mem rowKey (List.mem_of_find?_eq_some hf)) h

theorem sum_keyPurch {q : List Row} (hn : (q.map rowKey).Nodup) :
    ((q.map rowKey).map (keyPurch q)).sum = sumPurch q := by
  rw [sumPurch]
  congr 1
  refine map_keyfun_eq ?_
  intro r hr
  rw [keyPurch, findRow_self hn hr]

/-- `sumPurch` splits over a membership filter and its complement. -/
theorem sumPurch_filter_split (q : List Row) (p : Row → Bool) :
    sumPurch q = sumPurch (q.filter p) + sumPurch (q.filter (fun r => !p r)) := by
  have hperm := (List.filter_append_perm p q).symm
  rw [sumPurch, sumPurch, sumPurch, ← List.sum_append, ← List.map_append]
  exact (hperm.map purchOf).sum_eq

/-- C5 (amended): for a key present in both sources, the merged
`total_purchases` is `float(q1) + float(q2)` whenever neither `float()`
raises — the exact sum when both sides are actual numbers, and NaN (a null
cell) when either side is NaN — and the raw Q2 value only when a `float()`
call raises (unparseable string); when every row's purchases are actual
numbers, the output's total equals the purchases of single-source keys
plus the per-key sums of doubly-sourced keys. -/
theorem C5_total_purchases (pdate : Value → Option Date) (q1 q2 : List Row)
    (h1 : (q1.map rowKey).Nodup) (h2 : (q2.map rowKey).Nodup)
    (h01 : Value.vnull ∉ q1.map rowKey) (h02 : Value.vnull ∉ q2.map rowKey) :
    (∀ k r1 r2 out confl, findRow q1 k = some r1 → findRow q2 k = some r2 →
      merge_customers pdate q1 q2 = some (out, confl) →
      ∃ m, outputRowFor out k = some m ∧
        getCol m "total_purchases" =
          match toFloat (getCol r1 "total_purchases"),
              toFloat (getCol r2 "total_purchases") with
          | some a, some b => valueOfPyFloat (addPy a b)
          | _, _ => getCol r2 "total_purchases") ∧
    (∀ out confl,
      (∀ r ∈ q1, (toFloatNum (getCol r "total_purchases")).isSome) →
      (∀ r ∈ q2, (toFloatNum (getCol r "total_purchases")).isSome) →
      merge_customers pdate q1 q2 = some (out, confl) →
      sumPurch out =
        sumPurch (q1.filter (fun r => rowKey r ∉ q2.map rowKey)) +
          sumPurch (q2.filter (fun r => rowKey r ∉ q1.map rowKey)) +
          (sumPurch (q1.filter (fun r => rowKey r ∈ q2.map rowKey)) +
            sumPurch (q2.filter (fun r => rowKey r ∈ q1.map rowKey)))) := by
  constructor
  · intro k r1 r2 out confl hf1 hf2 hm
    rw [merge_customers_run pdate q1 q2 h1 h2 h01 h02] at hm
    obtain ⟨hout, -⟩ := Prod.mk.injEq .. ▸ Option.some.inj hm
    subst hout
    have hk : k ∈ mergeKeys q1 q2 :=
      mem_mergeKeys.mpr (Or.inl (rowKey_of_findRow hf1 ▸
        List.mem_map_of_mem rowKey (List.mem_of_find?_eq_some hf1)))
    refine ⟨_, outputRowFor_run pdate q1 q2 hk, ?_⟩
    rw [getCol_dropColumn _ (show "total_purchases" ≠ "source" by decide)]
    simp only [resolveKey, hf1, hf2, resolveConflictRows]
    rw [getCol_tagRow "Q1" r1 (show "total_purchases" ≠ "source" by decide),
      getCol_tagRow "Q2" r2 (show "total_purchases" ≠ "source" by decide)]
    cases hmin : pyMinDate (pdate (getCol (tagRow "Q1" r1) "registration_date"))
        (pdate (getCol (tagRow "Q2" r2) "registration_date")) with
    | some dt =>
      rw [getCol_setCol_ne _ _ (show "total_purchases" ≠ "registration_date" by decide)]
      cases htf1 : toFloat (getCol r1 "total_purchases") with
      | some a =>
        cases htf2 : toFloat (getCol r2 "total_purchases") with
        | some b => exact getCol_setCol_self _ _ _
        | none => rw [getCol_setCol_self]
      | none => rw [getCol_setCol_self]
    | none =>
      rw [getCol_setCol_ne _ _ (show "total_purchases" ≠ "registration_date" by decide)]
      cases htf1 : toFloat (getCol r1 "total_purchases") with
      | some a =>
        cases htf2 : toFloat (getCol r2 "total_purchases") with
        | some b => exact getCol_setCol_self _ _ _
        | none => rw [getCol_setCol_self]
      | none => rw [getCol_setCol_self]
  · intro out confl hA1 hA2 hm
    rw [merge_customers_run pdate q1 q2 h1 h2 h01 h02] at hm
    obtain ⟨hout, -⟩ := Prod.mk.injEq .. ▸ Option.some.inj hm
    subst hout
    have hcontrib : ∀ k ∈ mergeKeys q1 q2,
        purchOf (dropColumn (resolveKey pdate (mergedColumns q1 q2) q1 q2 k).1 "source") =
          keyPurch q1 k + keyPurch q2 k := by
      intro k hk
      rw [purchOf, getCol_dropColumn _ (show "total_purchases" ≠ "source" by decide), resolveKey]
      cases hf1 : findRow q1 k with
      | some a =>
        cases hf2 : findRow q2 k with
        | some b =>
          obtain ⟨x, hx⟩ := Option.isSome_iff_exists.mp
            (hA1 a (List.mem_of_find?_eq_some hf1))
          obtain ⟨y, hy⟩ := Option.isSome_iff_exists.mp
            (hA2 b (List.mem_of_find?_eq_some hf2))
          have hx' := toFloat_of_toFloatNum hx
          have hy' := toFloat_of_toFloatNum hy
          simp only [resolveConflictRows]
          rw [getCol_tagRow "Q1" a (show "total_purchases" ≠ "source" by decide),
            getCol_tagRow "Q2" b (show "total_purchases" ≠ "source" by decide), hx', hy']
          cases hmin : pyMinDate (pdate (getCol (tagRow "Q1" a) "registration_date"))
              (pdate (getCol (tagRow "Q2" b) "registration_date")) <;>
            rw [getCol_setCol_ne _ _ (show "total_purchases" ≠ "registration_date" by decide),
              getCol_setCol_self] <;>
            simp [keyPurch, hf1, hf2, purchOf, hx, hy, addPy, valueOfPyFloat, toFloatNum_vnum]
        | none =>
          rw [getCol_tagRow "Q1" a (show "total_purchases" ≠ "source" by decide)]
          simp [keyPurch, hf1, hf2, purchOf]
      | none =>
        cases hf2 : findRow q2 k with
        | some b =>
          rw [getCol_tagRow "Q2" b (show "total_purchases" ≠ "source" by decide)]
          simp [keyPurch, hf1, hf2, purchOf]
        | none =>
          exfalso
          rcases mem_mergeKeys.mp hk with hx | hx
          · have := findRow_isSome_of_mem hx
            rw [hf1] at this
            simp at this
          · have := findRow_isSome_of_mem hx
            rw [hf2] at this
            simp at this
    have hsumout : sumPurch ((mergeKeys q1 q2).map
        (fun k => dropColumn (resolveKey pdate (mergedColumns q1 q2) q1 q2 k).1 "source")) =
        ((mergeKeys q1 q2).map (fun k => keyPurch q1 k + keyPurch q2 k)).sum := by
      rw [sumPurch, List.map_map]
      congr 1
      exact List.map_congr_left hcontrib
    have hside : ∀ (q : List Row), (q.map rowKey).Nodup →
        (∀ k ∈ mergeKeys q1 q2, k ∈ q.map rowKey ∨ True) →
        (∀ a ∈ q.map rowKey, a ∈ mergeKeys q1 q2) →
        ((mergeKeys q1 q2).map (keyPurch q)).sum = sumPurch q := by
      intro q hq _ hsub
      rw [sum_map_guard (mergeKeys q1 q2) (fun k => k ∈ q.map rowKey) (keyPurch q)
          (fun k _ hk => keyPurch_of_not_mem (by simpa using hk))]
      rw [((filter_mem_perm (nodup_mergeKeys q1 q2) hq hsub).map (keyPurch q)).sum_eq]
      exact sum_keyPurch hq
    have hq1sum : ((mergeKeys q1 q2).map (keyPurch q1)).sum = sumPurch q1 :=
      hside q1 h1 (fun _ _ => Or.inr trivial)
        (fun a ha => mem_mergeKeys.mpr (Or.inl ha))
    have hq2sum : ((mergeKeys q1 q2).map (keyPurch q2)).sum = sumPurch q2 :=
      hside q2 h2 (fun _ _ => Or.inr trivial)
        (fun a ha => mem_mergeKeys.mpr (Or.inr ha))
    rw [hsumout, sum_map_add_distrib, hq1sum, hq2sum]
    have hsplit1 := sumPurch_filter_split q1 (fun r => rowKey r ∈ q2.map rowKey)
    have hsplit2 := sumPurch_filter_split q2 (fun r => rowKey r ∈ q1.map rowKey)
    have hnot1 : q1.filter (fun r => !(decide (rowKey r ∈ q2.map rowKey))) =
        q1.filter (fun r => rowKey r ∉ q2.map rowKey) := by
      refine List.filter_congr ?_
      intro r _
      exact decide_not.symm
    have hnot2 : q2.filter (fun r => !(decide (rowKey r ∈ q1.map rowKey))) =
        q2.filter (fun r => rowKey r ∉ q1.map rowKey) := by
      refine List.filter_congr ?_
      intro r _
      exact decide_not.symm
    rw [hnot1] at hsplit1
    rw [hnot2] at hsplit2
    rw [hsplit1, hsplit2]
    ring

def w9a : Row :=
  [("customer_id", .vstr "9"), ("registration_date", .vnull),
   ("total_purchases", .vnum 100), ("name", .vstr "X")]

def w9b : Row :=
  [("customer_id", .vstr "9"), ("registration_date", .vnull),
   ("total_purchases", .vnum 50), ("name", .vstr "Y")]

def w7 : Row :=
  [("customer_id", .vstr "7"), ("registration_date", .vnull),
   ("total_purchases", .vnum 5), ("name", .vstr "Z")]

def c5Out : List Row :=
  [[("customer_id", .vstr "7"), ("registration_date", .vnull),
    ("total_purchases", .vnum 5), ("name", .vstr "Z")],
   [("customer_id", .vstr "9"), ("registration_date", .vnull),
    ("total_purchases", .vnum 150), ("name", .vstr "Y")]]

def c5Confl : List Conflict :=
  [(.vstr "9", "name", .vstr "X", .vstr "Y")]

def c5NanRow : Row :=
  [("customer_id", .vstr "9"), ("registration_date", .vnull),
   ("total_purchases", .vnull), ("name", .vstr "X")]

/-- C5 counterexample: entity 9 has a missing (NaN) `total_purchases` in Q1
and 50 in Q2. `float(nan)` succeeds in Python, so the code stores
`nan + 50 = nan` (a null cell) — not the later (Q2) record's raw value 50
that the claim's fallback clause demands for a non-numeric side. -/
theorem C5_counterexample :
    (merge_customers pdateNone [c5NanRow] [w9b]).map
        (fun p => p.1.map (fun r => getCol r "total_purchases")) =
      some [Value.vnull] ∧
    getCol w9b "total_purchases" = Value.vnum 50 := by
  constructor <;> decide

/-- C5 witness: entity 9 with purchases 100 and 50 comes out with 150, and
the global accounting identity holds on the same batches. -/
theorem C5_witness :
    (∃ m, outputRowFor c5Out (Value.vstr "9") = some m ∧
      getCol m "total_purchases" =
        match toFloat (getCol w9a "total_purchases"),
            toFloat (getCol w9b "total_purchases") with
        | some a, some b => valueOfPyFloat (addPy a b)
        | _, _ => getCol w9b "total_purchases") ∧
    sumPurch c5Out =
      sumPurch ([w9a, w7].filter (fun r => rowKey r ∉ [w9b].map rowKey)) +
        sumPurch ([w9b].filter (fun r => rowKey r ∉ [w9a, w7].map rowKey)) +
        (sumPurch ([w9a, w7].filter (fun r => rowKey r ∈ [w9b].map rowKey)) +
          sumPurch ([w9b].filter (fun r => rowKey r ∈ [w9a, w7].map rowKey))) :=
  ⟨(C5_total_purchases pdateNone [w9a, w7] [w9b]
      (by decide) (by decide) (by decide) (by decide)).1
      (Value.vstr "9") w9a w9b c5Out c5Confl (by decide) (by decide) (by decide),
   (C5_total_purchases pdateNone [w9a, w7] [w9b]
      (by decide) (by decide) (by decide) (by decide)).2
      c5Out c5Confl (by decide) (by decide) (by decide)⟩

/-! ### C6: Conflict Records -/

/-- The columns eligible for conflict logging: every concatenated-frame
column except the identifier, the purchase total, the registration date and
the source tag. -/
def conflictCols (q1 q2 : List Row) : List String :=
  (mergedColumns q1 q2).filter (fun c =>
    ¬ (c = "customer_id" ∨ c = "total_purchases" ∨ c = "registration_date" ∨ c = "source"))

/-- How many conflict-eligible fields disagree (both sides non-null and
unequal) for one doubly-sourced key. -/
def disagreeCount (q1 q2 : List Row) (k : Value) : ℕ :=
  match findRow q1 k, findRow q2 k with
  | some r1, some r2 =>
    ((conflictCols q1 q2).filter (fun c =>
      getCol r1 c ≠ Value.vnull ∧ getCol r2 c ≠ Value.vnull ∧
        getCol r1 c ≠ getCol r2 c)).length
  | _, _ => 0

theorem nodup_conflictCols (q1 q2 : List Row) : (conflictCols q1 q2).Nodup :=
  (nodup_dedupFirst _).filter _

theorem mem_conflictCols_ne_source {q1 q2 : List Row} {c : String}
    (h : c ∈ conflictCols q1 q2) : c ≠ "source" := by
  have := (List.mem_filter.mp h).2
  simp only [decide_eq_true_eq] at this
  intro hcontra
  exact this (Or.inr (Or.inr (Or.inr hcontra)))

theorem filterMap_if_eq {α β : Type} (l : List α) (p : α → Prop) [DecidablePred p]
    (g : α → β) :
    l.filterMap (fun a => if p a then some (g a) else none) =
      (l.filter (fun a => p a)).map g := by
  induction l with
  | nil => rfl
  | cons a l ih =>
    rw [List.filterMap_cons, List.filter_cons]
    by_cases h : p a
    · simp [h, ih]
    · simp [h, ih]

/-- The conflict list of a doubly-sourced key, restated on the raw
(untagged) rows. -/
theorem conflictList_eq (pdate : Value → Option Date) (q1 q2 : List Row)
    (cid : Value) (a b : Row) :
    (resolveConflictRows pdate (mergedColumns q1 q2) cid
        (tagRow "Q1" a) (tagRow "Q2" b)).2 =
      ((conflictCols q1 q2).filter (fun c =>
        getCol a c ≠ Value.vnull ∧ getCol b c ≠ Value.vnull ∧
          getCol a c ≠ getCol b c)).map
        (fun c => (cid, c, getCol a c, getCol b c)) := by
  simp only [resolveConflictRows]
  rw [show ((mergedColumns q1 q2).filter (fun c =>
      ¬ (c = "customer_id" ∨ c = "total_purchases" ∨ c = "registration_date" ∨
        c = "source"))) = conflictCols q1 q2 from rfl]
  rw [← filterMap_if_eq]
  refine List.filterMap_congr ?_
  intro c hc
  have hcs : c ≠ "source" := mem_conflictCols_ne_source hc
  rw [getCol_tagRow "Q1" a hcs, getCol_tagRow "Q2" b hcs]

theorem filter_beq_of_nodup {l : List String} (h : l.Nodup) (c : String) :
    l.filter (fun x => x == c) = if c ∈ l then [c] else [] := by
  induction l with
  | nil => simp
  | cons a l ih =>
    rw [List.filter_cons]
    by_cases hac : a = c
    · subst hac
      have ha : a ∉ l := (List.nodup_cons.mp h).1
      have hnil : l.filter (fun x => x == a) = [] := by
        rw [List.filter_eq_nil_iff]
        intro b hb hbc
        rw [show b = a by simpa using hbc] at hb
        exact ha hb
      simp [hnil]
    · have : (a == c) = false := by simpa using hac
      simp only [this, Bool.false_eq_true, if_false]
      rw [ih (List.nodup_cons.mp h).2]
      by_cases hcl : c ∈ l
      · rw [if_pos hcl, if_pos (List.mem_cons_of_mem a hcl)]
      · rw [if_neg hcl, if_neg (by simp [Ne.symm hac, hcl])]

theorem flatMap_single {α β : Type} {K : List α} {F : α → List β} {k : α}
    (hK : K.Nodup) (hk : k ∈ K) (h : ∀ k' ∈ K, k' ≠ k → F k' = []) :
    K.flatMap F = F k := by
  induction K with
  | nil => simp at hk
  | cons a K ih =>
    rw [List.flatMap_cons]
    rcases List.mem_cons.mp hk with rfl | hk'
    · have hnil : K.flatMap F = [] := by
        rw [List.flatMap_eq_nil_iff]
        intro k' hk'
        exact h k' (List.mem_cons_of_mem _ hk')
          (fun hcontra => (List.nodup_cons.mp hK).1 (hcontra ▸ hk'))
      rw [hnil, List.append_nil]
    · have hak : a ≠ k := fun hcontra => (List.nodup_cons.mp hK).1 (hcontra ▸ hk')
      rw [h a (List.mem_cons_self a K) hak, List.nil_append]
      exact ih (List.nodup_cons.mp hK).2 hk'
        (fun k' hx => h k' (List.mem_cons_of_mem a hx))

theorem mem_conflictCols_spec {q1 q2 : List Row} {c : String}
    (h : c ∈ conflictCols q1 q2) :
    c ≠ "customer_id" ∧ c ≠ "total_purchases" ∧ c ≠ "registration_date" ∧
      c ≠ "source" := by
  have hp := (List.mem_filter.mp h).2
  simp only [decide_eq_true_eq] at hp
  exact ⟨fun h1 => hp (Or.inl h1), fun h2 => hp (Or.inr (Or.inl h2)),
    fun h3 => hp (Or.inr (Or.inr (Or.inl h3))),
    fun h4 => hp (Or.inr (Or.inr (Or.inr h4)))⟩

theorem mem_resolveConflict_fst {pdate : Value → Option Date} {cols : List String}
    {cid : Value} {r1 r2 : Row} {t : Conflict}
    (ht : t ∈ (resolveConflictRows pdate cols cid r1 r2).2) : t.1 = cid := by
  simp only [resolveConflictRows] at ht
  obtain ⟨c, -, hct⟩ := List.mem_filterMap.mp ht
  split at hct
  · exact (Option.some.inj hct) ▸ rfl
  · exact absurd hct (by simp)

theorem resolveKey_conflict_fst (pdate : Value → Option Date) (cols : List String)
    (q1 q2 : List Row) (k' : Value) :
    ∀ t ∈ (resolveKey pdate cols q1 q2 k').2, t.1 = k' := by
  intro t ht
  rw [resolveKey] at ht
  cases hf1 : findRow q1 k' with
  | some a =>
    cases hf2 : findRow q2 k' with
    | some b =>
      rw [hf1, hf2] at ht
      exact mem_resolveConflict_fst ht
    | none =>
      rw [hf1, hf2] at ht
      simp at ht
  | none =>
    cases hf2 : findRow q2 k' with
    | some b =>
      rw [hf1, hf2] at ht
      simp at ht
    | none =>
      rw [hf1, hf2] at ht
      simp at ht

/-- C6: one Conflict Record per disagreeing non-special field of a
doubly-sourced key — emitted precisely when both sides are non-null and
unequal, holding exactly (key, field, Q1 value, Q2 value); the Q2 value is
the one kept in the output row for every conflict-eligible field; and the
total number of Conflict Records is the sum over doubly-sourced keys of
their disagreeing-field counts. -/
theorem C6_conflict_records (pdate : Value → Option Date) (q1 q2 : List Row)
    (h1 : (q1.map rowKey).Nodup) (h2 : (q2.map rowKey).Nodup)
    (h01 : Value.vnull ∉ q1.map rowKey) (h02 : Value.vnull ∉ q2.map rowKey) :
    (∀ k r1 r2 out confl c, findRow q1 k = some r1 → findRow q2 k = some r2 →
      merge_customers pdate q1 q2 = some (out, confl) →
      confl.filter (fun t => t.1 == k && t.2.1 == c) =
        (if c ∈ conflictCols q1 q2 ∧ getCol r1 c ≠ Value.vnull ∧
            getCol r2 c ≠ Value.vnull ∧ getCol r1 c ≠ getCol r2 c
         then [(k, c, getCol r1 c, getCol r2 c)] else [])) ∧
    (∀ k r1 r2 out confl c, findRow q1 k = some r1 → findRow q2 k = some r2 →
      merge_customers pdate q1 q2 = some (out, confl) → c ∈ conflictCols q1 q2 →
      ∃ m, outputRowFor out k = some m ∧ getCol m c = getCol r2 c) ∧
    (∀ out confl, merge_customers pdate q1 q2 = some (out, confl) →
      confl.length =
        (((q1.map rowKey).filter (fun x => x ∈ q2.map rowKey)).map
          (disagreeCount q1 q2)).sum) := by
  refine ⟨?_, ?_, ?_⟩
  · intro k r1 r2 out confl c hf1 hf2 hm
    rw [merge_customers_run pdate q1 q2 h1 h2 h01 h02] at hm
    obtain ⟨-, hconfl⟩ := Prod.mk.injEq .. ▸ Option.some.inj hm
    subst hconfl
    have hk : k ∈ mergeKeys q1 q2 :=
      mem_mergeKeys.mpr (Or.inl (rowKey_of_findRow hf1 ▸
        List.mem_map_of_mem rowKey (List.mem_of_find?_eq_some hf1)))
    rw [List.filter_flatMap]
    rw [flatMap_single (nodup_mergeKeys q1 q2) hk ?side]
    case side =>
      intro k' hk' hne
      rw [List.filter_eq_nil_iff]
      intro t ht
      rw [resolveKey_conflict_fst pdate (mergedColumns q1 q2) q1 q2 k' t ht]
      simp [hne]
    have hcfk : (resolveKey pdate (mergedColumns q1 q2) q1 q2 k).2 =
        ((conflictCols q1 q2).filter (fun c' =>
          getCol r1 c' ≠ Value.vnull ∧ getCol r2 c' ≠ Value.vnull ∧
            getCol r1 c' ≠ getCol r2 c')).map
          (fun c' => (k, c', getCol r1 c', getCol r2 c')) := by
      simp only [resolveKey, hf1, hf2]
      exact conflictList_eq pdate q1 q2 k r1 r2
    rw [hcfk, List.filter_map]
    have hpred : ((fun t : Conflict => t.1 == k && t.2.1 == c) ∘
        (fun c' => (k, c', getCol r1 c', getCol r2 c'))) = fun c' => c' == c := by
      funext c'
      simp [Function.comp]
    rw [hpred]
    rw [filter_beq_of_nodup ((nodup_conflictCols q1 q2).filter _) c]
    by_cases hcond : c ∈ conflictCols q1 q2 ∧ getCol r1 c ≠ Value.vnull ∧
        getCol r2 c ≠ Value.vnull ∧ getCol r1 c ≠ getCol r2 c
    · rw [if_pos hcond, if_pos (List.mem_filter.mpr ⟨hcond.1, by
        simp only [decide_eq_true_eq]
        exact hcond.2⟩)]
      rfl
    · rw [if_neg hcond, if_neg ?_, List.map_nil]
      intro hmem
      obtain ⟨hcc, hdec⟩ := List.mem_filter.mp hmem
      simp only [decide_eq_true_eq] at hdec
      exact hcond ⟨hcc, hdec⟩
  · intro k r1 r2 out confl c hf1 hf2 hm hc
    obtain ⟨-, htp, hrd, hcs⟩ := mem_conflictCols_spec hc
    rw [merge_customers_run pdate q1 q2 h1 h2 h01 h02] at hm
    obtain ⟨hout, -⟩ := Prod.mk.injEq .. ▸ Option.some.inj hm
    subst hout
    have hk : k ∈ mergeKeys q1 q2 :=
      mem_mergeKeys.mpr (Or.inl (rowKey_of_findRow hf1 ▸
        List.mem_map_of_mem rowKey (List.mem_of_find?_eq_some hf1)))
    refine ⟨_, outputRowFor_run pdate q1 q2 hk, ?_⟩
    rw [getCol_dropColumn _ hcs]
    simp only [resolveKey, hf1, hf2, resolveConflictRows]
    split <;> split <;>
      rw [getCol_setCol_ne _ _ hrd, getCol_setCol_ne _ _ htp,
        getCol_tagRow "Q2" r2 hcs]
  · intro out confl hm
    rw [merge_customers_run pdate q1 q2 h1 h2 h01 h02] at hm
    obtain ⟨-, hconfl⟩ := Prod.mk.injEq .. ▸ Option.some.inj hm
    subst hconfl
    rw [List.length_flatMap]
    have hlen : ∀ k ∈ mergeKeys q1 q2,
        (List.length ∘ fun k => (resolveKey pdate (mergedColumns q1 q2) q1 q2 k).2) k =
          disagreeCount q1 q2 k := by
      intro k hk
      simp only [Function.comp]
      cases hf1 : findRow q1 k with
      | some a =>
        cases hf2 : findRow q2 k with
        | some b =>
          have : (resolveKey pdate (mergedColumns q1 q2) q1 q2 k).2 =
              ((conflictCols q1 q2).filter (fun c' =>
                getCol a c' ≠ Value.vnull ∧ getCol b c' ≠ Value.vnull ∧
                  getCol a c' ≠ getCol b c')).map
                (fun c' => (k, c', getCol a c', getCol b c')) := by
            simp only [resolveKey, hf1, hf2]
            exact conflictList_eq pdate q1 q2 k a b
          rw [this, List.length_map, disagreeCount, hf1, hf2]
        | none =>
          simp [resolveKey, hf1, hf2, disagreeCount]
      | none =>
        cases hf2 : findRow q2 k with
        | some b => simp [resolveKey, hf1, hf2, disagreeCount]
        | none => simp [resolveKey, hf1, hf2, disagreeCount]
    rw [List.map_congr_left hlen]
    rw [sum_map_guard (mergeKeys q1 q2) (fun x => x ∈ (q1.map rowKey).filter
        (fun x => x ∈ q2.map rowKey)) (disagreeCount q1 q2) ?guard]
    case guard =>
      intro k _ hkf
      rw [disagreeCount]
      cases hf1 : findRow q1 k with
      | some a =>
        cases hf2 : findRow q2 k with
        | some b =>
          exfalso
          have hk1 : k ∈ q1.map rowKey := rowKey_of_findRow hf1 ▸
            List.mem_map_of_mem rowKey (List.mem_of_find?_eq_some hf1)
          have hk2 : k ∈ q2.map rowKey := rowKey_of_findRow hf2 ▸
            List.mem_map_of_mem rowKey (List.mem_of_find?_eq_some hf2)
          have hmem : k ∈ (q1.map rowKey).filter (fun x => x ∈ q2.map rowKey) :=
            List.mem_filter.mpr ⟨hk1, by simpa using hk2⟩
          exact of_decide_eq_false hkf hmem
        | none => rfl
      | none => rfl
    rw [((filter_mem_perm (nodup_mergeKeys q1 q2) (h1.filter _) ?sub).map
      (disagreeCount q1 q2)).sum_eq]
    case sub =>
      intro a ha
      exact mem_mergeKeys.mpr (Or.inl (List.mem_filter.mp ha).1)

/-- C6 witness: the disagreeing `name` of doubly-sourced entity 9 produces
exactly one Conflict Record, the Q2 name is kept, and the total conflict
count matches the disagreement count. -/
theorem C6_witness :
    c5Confl.filter (fun t => t.1 == Value.vstr "9" && t.2.1 == "name") =
      (if "name" ∈ conflictCols [w9a, w7] [w9b] ∧ getCol w9a "name" ≠ Value.vnull ∧
          getCol w9b "name" ≠ Value.vnull ∧ getCol w9a "name" ≠ getCol w9b "name"
       then [(Value.vstr "9", "name", getCol w9a "name", getCol w9b "name")] else []) ∧
    (∃ m, outputRowFor c5Out (Value.vstr "9") = some m ∧
      getCol m "name" = getCol w9b "name") ∧
    c5Confl.length =
      ((([w9a, w7].map rowKey).filter (fun x => x ∈ [w9b].map rowKey)).map
        (disagreeCount [w9a, w7] [w9b])).sum :=
  ⟨(C6_conflict_records pdateNone [w9a, w7] [w9b]
      (by decide) (by decide) (by decide) (by decide)).1
      (Value.vstr "9") w9a w9b c5Out c5Confl "name" (by decide) (by decide) (by decide),
   (C6_conflict_records pdateNone [w9a, w7] [w9b]
      (by decide) (by decide) (by decide) (by decide)).2.1
      (Value.vstr "9") w9a w9b c5Out c5Confl "name" (by decide) (by decide) (by decide)
      (by decide),
   (C6_conflict_records pdateNone [w9a, w7] [w9b]
      (by decide) (by decide) (by decide) (by decide)).2.2
      c5Out c5Confl (by decide)⟩

end

end DataClean
